import Mathlib

/-!
Verification of the QBolapp link-layer protocol engine against its
natural-language specification.  The Python sources under `src/core/`
(`frame.py`, `frame_builder.py`, `messaging.py`) are shallowly embedded:
bytes are `Nat` values below 256, Python `bytes` objects are `List Nat`,
Python strings are Lean `String` or `List Char`, Python dicts are
association lists, and fallible code returns `Option` or `Except`.
-/

namespace QBol

/-! ## Association lists modelling Python dicts

`dictSet` models `d[k] = v` (replace in place, else append), `dictRemove`
models `del d[k]`, `dictLookup` models `d.get(k)` / `k in d`.  Real Python
dicts never hold duplicate keys; `KeysNodup` captures that invariant. -/

def dictLookup {α β : Type} [DecidableEq α] (k : α) : List (α × β) → Option β
  | [] => none
  | (k2, v) :: rest => if k2 = k then some v else dictLookup k rest

def dictSet {α β : Type} [DecidableEq α] (k : α) (v : β) : List (α × β) → List (α × β)
  | [] => [(k, v)]
  | (k2, v2) :: rest => if k2 = k then (k, v) :: rest else (k2, v2) :: dictSet k v rest

def dictRemove {α β : Type} [DecidableEq α] (k : α) : List (α × β) → List (α × β)
  | [] => []
  | (k2, v2) :: rest => if k2 = k then rest else (k2, v2) :: dictRemove k rest

def KeysNodup {α β : Type} (l : List (α × β)) : Prop := (l.map Prod.fst).Nodup

theorem dictLookup_eq_none {α β : Type} [DecidableEq α] (k : α) (l : List (α × β)) :
    dictLookup k l = none ↔ k ∉ l.map Prod.fst := by
  induction l with
  | nil => simp [dictLookup]
  | cons hd t ih =>
    obtain ⟨k2, v2⟩ := hd
    by_cases hk : k2 = k
    · subst hk; simp [dictLookup]
    · simp [dictLookup, hk, ih, Ne.symm hk]

theorem dictLookup_set_self {α β : Type} [DecidableEq α] (k : α) (v : β) (l : List (α × β)) :
    dictLookup k (dictSet k v l) = some v := by
  induction l with
  | nil => simp [dictSet, dictLookup]
  | cons h t ih =>
    obtain ⟨k2, v2⟩ := h
    by_cases hk : k2 = k <;> simp [dictSet, dictLookup, hk, ih]

theorem dictLookup_set_ne {α β : Type} [DecidableEq α] {k k2 : α} (v : β) (l : List (α × β))
    (h : k2 ≠ k) : dictLookup k2 (dictSet k v l) = dictLookup k2 l := by
  induction l with
  | nil => simp [dictSet, dictLookup, Ne.symm h]
  | cons hd t ih =>
    obtain ⟨k3, v3⟩ := hd
    by_cases hk : k3 = k
    · subst hk
      simp [dictSet, dictLookup, Ne.symm h, ih]
    · by_cases hk2 : k3 = k2 <;> simp [dictSet, dictLookup, hk, hk2, h, ih]

theorem dictLookup_remove_ne {α β : Type} [DecidableEq α] {k k2 : α} (l : List (α × β))
    (h : k2 ≠ k) : dictLookup k2 (dictRemove k l) = dictLookup k2 l := by
  induction l with
  | nil => simp [dictRemove]
  | cons hd t ih =>
    obtain ⟨k3, v3⟩ := hd
    by_cases hk : k3 = k
    · subst hk
      simp [dictRemove, dictLookup, Ne.symm h]
    · by_cases hk2 : k3 = k2 <;> simp [dictRemove, dictLookup, hk, hk2, h, ih]

theorem keys_remove_sublist {α β : Type} [DecidableEq α] (k : α) (l : List (α × β)) :
    ((dictRemove k l).map Prod.fst).Sublist (l.map Prod.fst) := by
  induction l with
  | nil => simp [dictRemove]
  | cons hd t ih =>
    obtain ⟨k2, v2⟩ := hd
    by_cases hk : k2 = k
    · subst hk
      simp only [dictRemove, if_pos rfl, List.map_cons]
      exact List.sublist_cons_self _ _
    · simpa [dictRemove, hk] using ih.cons₂ k2

theorem keysNodup_remove {α β : Type} [DecidableEq α] (k : α) (l : List (α × β))
    (h : KeysNodup l) : KeysNodup (dictRemove k l) :=
  h.sublist (keys_remove_sublist k l)

theorem not_mem_keys_remove_self {α β : Type} [DecidableEq α] (k : α) (l : List (α × β))
    (h : KeysNodup l) : k ∉ (dictRemove k l).map Prod.fst := by
  induction l with
  | nil => simp [dictRemove]
  | cons hd t ih =>
    obtain ⟨k2, v2⟩ := hd
    simp only [KeysNodup, List.map_cons, List.nodup_cons] at h
    by_cases hk : k2 = k
    · subst hk
      simpa [dictRemove] using h.1
    · simp only [dictRemove, if_neg hk, List.map_cons, List.mem_cons]
      rintro (hc | hc)
      · exact hk hc.symm
      · exact ih h.2 hc

theorem dictLookup_remove_self {α β : Type} [DecidableEq α] (k : α) (l : List (α × β))
    (h : KeysNodup l) : dictLookup k (dictRemove k l) = none :=
  (dictLookup_eq_none k _).mpr (not_mem_keys_remove_self k l h)

theorem dictLookup_filter {α β : Type} [DecidableEq α] (k : α) (p : α × β → Bool)
    (l : List (α × β)) (h : KeysNodup l) :
    dictLookup k (l.filter p) =
      match dictLookup k l with
      | some v => if p (k, v) then some v else none
      | none => none := by
  induction l with
  | nil => simp [dictLookup]
  | cons hd t ih =>
    obtain ⟨k3, v3⟩ := hd
    simp only [KeysNodup, List.map_cons, List.nodup_cons] at h
    by_cases hk : k3 = k
    · subst hk
      by_cases hp : p (k3, v3)
      · simp [List.filter_cons, hp, dictLookup]
      · have habs : dictLookup k3 (t.filter p) = none := by
          rw [dictLookup_eq_none]
          intro hm
          exact h.1 ((t.filter_sublist.map Prod.fst).mem hm)
        simp [List.filter_cons, hp, dictLookup, habs]
    · by_cases hp : p (k3, v3) <;>
        simp [List.filter_cons, hp, dictLookup, hk, ih h.2]

theorem keys_set_mem {α β : Type} [DecidableEq α] (k k2 : α) (v : β) (l : List (α × β)) :
    k2 ∈ (dictSet k v l).map Prod.fst → k2 = k ∨ k2 ∈ l.map Prod.fst := by
  induction l with
  | nil => intro hm; simp [dictSet] at hm; exact Or.inl hm
  | cons hd t ih =>
    obtain ⟨k3, v3⟩ := hd
    by_cases hk : k3 = k
    · subst hk
      intro hm
      simp only [dictSet, if_pos rfl, List.map_cons, List.mem_cons] at hm
      simpa using hm
    · intro hm
      simp only [dictSet, if_neg hk, List.map_cons, List.mem_cons] at hm
      rcases hm with hc | hc
      · simp [hc]
      · rcases ih hc with hc2 | hc2
        · exact Or.inl hc2
        · simp [hc2]

theorem keysNodup_set {α β : Type} [DecidableEq α] (k : α) (v : β) (l : List (α × β))
    (h : KeysNodup l) : KeysNodup (dictSet k v l) := by
  induction l with
  | nil => simp [dictSet, KeysNodup]
  | cons hd t ih =>
    obtain ⟨k3, v3⟩ := hd
    simp only [KeysNodup, List.map_cons, List.nodup_cons] at h
    by_cases hk : k3 = k
    · subst hk
      simpa [dictSet, KeysNodup] using h
    · simp only [dictSet, if_neg hk, KeysNodup, List.map_cons, List.nodup_cons]
      refine ⟨fun hm => ?_, ih h.2⟩
      rcases keys_set_mem k k3 v t hm with hc | hc
      · exact hk hc
      · exact h.1 hc

theorem keysNodup_filter {α β : Type} [DecidableEq α] (p : α × β → Bool) (l : List (α × β))
    (h : KeysNodup l) : KeysNodup (l.filter p) :=
  h.sublist (l.filter_sublist.map Prod.fst)

/-! ## Big-endian integer packing (`struct.pack`/`struct.unpack` formats H and I) -/

def u16be (n : Nat) : List Nat := [n / 256 % 256, n % 256]

def u32be (n : Nat) : List Nat :=
  [n / 16777216 % 256, n / 65536 % 256, n / 256 % 256, n % 256]

def parse16 (hi lo : Nat) : Nat := hi * 256 + lo

def parse32 (b0 b1 b2 b3 : Nat) : Nat := ((b0 * 256 + b1) * 256 + b2) * 256 + b3

theorem parse16_u16be (n : Nat) (h : n < 65536) :
    parse16 (n / 256 % 256) (n % 256) = n := by
  unfold parse16
  omega

theorem parse32_u32be (n : Nat) (h : n < 4294967296) :
    parse32 (n / 16777216 % 256) (n / 65536 % 256) (n / 256 % 256) (n % 256) = n := by
  unfold parse32
  omega

/-! ## CRC-32 (IEEE 802.3), as computed by `zlib.crc32` -/

def crc32Byte (crc b : Nat) : Nat :=
  let c := Nat.xor crc b
  let step := fun (x : Nat) =>
    if x % 2 = 1 then Nat.xor (x / 2) 0xEDB88320 else x / 2
  step (step (step (step (step (step (step (step c)))))))

def crc32Aux (crc : Nat) : List Nat → Nat
  | [] => crc
  | b :: rest => crc32Aux (crc32Byte crc b) rest

def crc32 (data : List Nat) : Nat :=
  Nat.xor (crc32Aux 0xFFFFFFFF data) 0xFFFFFFFF

/-! ## Character and digit utilities -/

def isHexDigitChar (c : Char) : Bool :=
  (48 ≤ c.toNat && c.toNat ≤ 57) || (65 ≤ c.toNat && c.toNat ≤ 70) ||
    (97 ≤ c.toNat && c.toNat ≤ 102)

def hexVal (c : Char) : Nat :=
  if 48 ≤ c.toNat && c.toNat ≤ 57 then c.toNat - 48
  else if 65 ≤ c.toNat && c.toNat ≤ 70 then c.toNat - 55
  else c.toNat - 87

def isDecDigitChar (c : Char) : Bool := 48 ≤ c.toNat && c.toNat ≤ 57

def decVal (c : Char) : Nat := c.toNat - 48

/-- Upper-case hex digit, as produced by Python's `"%02X"` format. -/
def hexDigitUpper (d : Nat) : Char := Char.ofNat (if d < 10 then 48 + d else 55 + d)

/-- The two-character upper-case hex rendering `"%02X"` of a byte. -/
def byteHex (b : Nat) : List Char := [hexDigitUpper (b / 16), hexDigitUpper (b % 16)]

/-- Decimal digit characters of `n`, most significant first (the fuel is an
upper bound on the number recursion, always instantiated with `n` itself). -/
def decCharsAux : Nat → Nat → List Char
  | _, 0 => []
  | 0, _ + 1 => []
  | fuel + 1, n + 1 =>
    decCharsAux fuel ((n + 1) / 10) ++ [Char.ofNat (48 + (n + 1) % 10)]

/-- Decimal digit characters of `n`, most significant first (Python `str(n)`). -/
def decChars (n : Nat) : List Char :=
  if n = 0 then ['0'] else decCharsAux n n

/-- Python whitespace characters stripped by `str.strip()` (ASCII subset). -/
def isPyWs (c : Char) : Bool :=
  c = ' ' || c = '\t' || c = '\n' || c.toNat = 13 || c.toNat = 11 || c.toNat = 12

/-- Python `str.strip()`. -/
def pyStrip (cs : List Char) : List Char :=
  ((cs.dropWhile isPyWs).reverse.dropWhile isPyWs).reverse

/-! ## Python `int(s)` and `int(s, 16)`

Both strip surrounding whitespace and accept an optional sign; digits may be
separated by single underscores; the hex form also accepts an `0x` prefix.
The result is an `Int` (Python integers are signed and unbounded). -/

def digitsUAux (digOk : Char → Bool) (dv : Char → Nat) (base : Nat) :
    Nat → List Char → Option Nat
  | acc, [] => some acc
  | acc, c :: rest =>
    if digOk c then digitsUAux digOk dv base (acc * base + dv c) rest
    else if c = '_' then
      match rest with
      | c2 :: rest2 =>
        if digOk c2 then digitsUAux digOk dv base (acc * base + dv c2) rest2 else none
      | [] => none
    else none

/-- Digit run with optional single underscores between digits; must start with
a digit and be nonempty. -/
def parseDigitRun (digOk : Char → Bool) (dv : Char → Nat) (base : Nat) :
    List Char → Option Nat
  | [] => none
  | c :: rest => if digOk c then digitsUAux digOk dv base (dv c) rest else none

def parseSigned (core : List Char → Option Nat) (cs : List Char) : Option Int :=
  match pyStrip cs with
  | '+' :: rest => (core rest).map (fun n => (n : Int))
  | '-' :: rest => (core rest).map (fun n => -(n : Int))
  | t => (core t).map (fun n => (n : Int))

/-- Python `int(s)` (decimal). -/
def pyIntDec (cs : List Char) : Option Int :=
  parseSigned (parseDigitRun isDecDigitChar decVal 10) cs

/-- Python `int(s, 16)`: also accepts an optional `0x`/`0X` prefix. -/
def pyIntHex (cs : List Char) : Option Int :=
  parseSigned
    (fun t =>
      match t with
      | '0' :: c :: rest =>
        if c = 'x' || c = 'X' then parseDigitRun isHexDigitChar hexVal 16 rest
        else parseDigitRun isHexDigitChar hexVal 16 (('0' :: c :: rest))
      | t2 => parseDigitRun isHexDigitChar hexVal 16 t2)
    cs

/-! ## Splitting (Python `str.split("|")` and `str.split(":")`) -/

def splitOnChar (sep : Char) : List Char → List (List Char)
  | [] => [[]]
  | c :: cs =>
    let r := splitOnChar sep cs
    if c = sep then [] :: r
    else
      match r with
      | [] => [[c]]
      | h :: t => (c :: h) :: t

theorem splitOnChar_ne_nil (sep : Char) (cs : List Char) : splitOnChar sep cs ≠ [] := by
  cases cs with
  | nil => simp [splitOnChar]
  | cons c cs2 =>
    simp only [splitOnChar]
    split
    · simp
    · split <;> simp

theorem splitOnChar_no_sep (sep : Char) (cs : List Char) (h : sep ∉ cs) :
    splitOnChar sep cs = [cs] := by
  induction cs with
  | nil => simp [splitOnChar]
  | cons c cs2 ih =>
    simp only [List.mem_cons] at h
    push_neg at h
    simp [splitOnChar, Ne.symm h.1, ih h.2]

theorem splitOnChar_append (sep : Char) (a b : List Char) (h : sep ∉ a) :
    splitOnChar sep (a ++ sep :: b) = a :: splitOnChar sep b := by
  induction a with
  | nil => simp [splitOnChar]
  | cons c a2 ih =>
    simp only [List.mem_cons] at h
    push_neg at h
    simp [splitOnChar, Ne.symm h.1, ih h.2]

/-! ## UTF-8 codec

`utf8EncodeChar` encodes a scalar value; `utf8Decode` is Python's strict
`bytes.decode("utf-8")` returning `none` on any error, `utf8DecodeReplace`
is `bytes.decode("utf-8", errors="replace")`, emitting U+FFFD and skipping
the offending prefix. -/

def utf8EncodeChar (c : Char) : List Nat :=
  let n := c.toNat
  if n < 128 then [n]
  else if n < 2048 then [192 + n / 64, 128 + n % 64]
  else if n < 65536 then [224 + n / 4096, 128 + n / 64 % 64, 128 + n % 64]
  else [240 + n / 262144, 128 + n / 4096 % 64, 128 + n / 64 % 64, 128 + n % 64]

def strBytes (s : String) : List Nat := (s.data.map utf8EncodeChar).flatten

def isCont (b : Nat) : Bool := 128 ≤ b && b < 192

def scalar2 (b b2 : Nat) : Nat := (b - 192) * 64 + (b2 - 128)

def scalar3 (b b2 b3 : Nat) : Nat := ((b - 224) * 64 + (b2 - 128)) * 64 + (b3 - 128)

def scalar4 (b b2 b3 b4 : Nat) : Nat :=
  (((b - 240) * 64 + (b2 - 128)) * 64 + (b3 - 128)) * 64 + (b4 - 128)

/-- Decode one UTF-8 scalar from the front of the buffer: returns the
character and the number of bytes consumed, or `none` if the prefix is
malformed (stray continuation byte, overlong form, surrogate, or a lead
byte with too few or invalid continuation bytes). -/
def utf8DecodeOne : List Nat → Option (Char × Nat)
  | [] => none
  | b :: rest =>
    if b < 128 then some (Char.ofNat b, 1)
    else if b < 194 then none           -- continuation byte or overlong lead C0/C1
    else if b < 224 then                -- 2-byte sequence, lead C2..DF
      match rest with
      | b2 :: _ =>
        if isCont b2 then some (Char.ofNat (scalar2 b b2), 2) else none
      | [] => none
    else if b < 240 then                -- 3-byte sequence, lead E0..EF
      match rest with
      | b2 :: b3 :: _ =>
        if isCont b2 && isCont b3 && (b ≠ 224 || 160 ≤ b2) && (b ≠ 237 || b2 < 160) then
          some (Char.ofNat (scalar3 b b2 b3), 3)
        else none
      | _ => none
    else if b < 245 then                -- 4-byte sequence, lead F0..F4
      match rest with
      | b2 :: b3 :: b4 :: _ =>
        if isCont b2 && isCont b3 && isCont b4 && (b ≠ 240 || 144 ≤ b2) &&
            (b ≠ 244 || b2 < 144) then
          some (Char.ofNat (scalar4 b b2 b3 b4), 4)
        else none
      | _ => none
    else none

theorem utf8DecodeOne_pos {bs : List Nat} {c : Char} {n : Nat}
    (h : utf8DecodeOne bs = some (c, n)) : 1 ≤ n := by
  cases bs with
  | nil => simp [utf8DecodeOne] at h
  | cons b rest =>
    simp only [utf8DecodeOne] at h
    repeat' split at h
    all_goals simp_all
    all_goals omega

/-- The decoding loop, driven by a fuel argument that the wrappers set to
the buffer length; `utf8DecodeOne` consumes at least one byte per step, so
the fuel never runs out. -/
def utf8DecodeLoop : Nat → List Nat → Option (List Char)
  | _, [] => some []
  | 0, _ :: _ => none
  | fuel + 1, b :: rest =>
    match utf8DecodeOne (b :: rest) with
    | some (c, n) => (utf8DecodeLoop fuel ((b :: rest).drop n)).map (fun cs => c :: cs)
    | none => none

/-- Python strict `bytes.decode("utf-8")`: `none` models `UnicodeDecodeError`. -/
def utf8Decode (bs : List Nat) : Option (List Char) := utf8DecodeLoop bs.length bs

/-- The replacing loop: on a malformed prefix it emits U+FFFD and skips one
byte. -/
def utf8DecodeReplaceLoop : Nat → List Nat → List Char
  | _, [] => []
  | 0, _ :: _ => []
  | fuel + 1, b :: rest =>
    match utf8DecodeOne (b :: rest) with
    | some (c, n) => c :: utf8DecodeReplaceLoop fuel ((b :: rest).drop n)
    | none => Char.ofNat 65533 :: utf8DecodeReplaceLoop fuel rest

/-- Python `bytes.decode("utf-8", errors="replace")`. -/
def utf8DecodeReplace (bs : List Nat) : List Char := utf8DecodeReplaceLoop bs.length bs

/-! ## The wire frame (`src/core/frame.py`) -/

def ETHERTYPE : Nat := 0x88B5

/-- `struct.calcsize("!6s6sHBHHHH")`: 6+6+2+1+2+2+2+2 = 23 bytes. -/
def HEADER_SIZE : Nat := 23

def CRC_SIZE : Nat := 4

/-- `Frame.TYPE_MAP`. -/
def typeCode (s : String) : Option Nat :=
  if s = "MSG" then some 1
  else if s = "FILE" then some 2
  else if s = "CTRL" then some 3
  else if s = "HELLO" then some 4
  else if s = "BROADCAST" then some 5
  else none

/-- `Frame.INV_TYPE_MAP`. -/
def invTypeCode (n : Nat) : Option String :=
  if n = 1 then some "MSG"
  else if n = 2 then some "FILE"
  else if n = 3 then some "CTRL"
  else if n = 4 then some "HELLO"
  else if n = 5 then some "BROADCAST"
  else none

/-- Python `str.upper()` (ASCII). -/
def upperStr (s : String) : String := String.mk (s.data.map Char.toUpper)

structure Frame where
  mac_dst : String
  mac_src : String
  msg_type : String
  transfer_id : Nat
  fragment_no : Nat
  total_frags : Nat
  data : List Nat
deriving DecidableEq, Repr

/-- `Frame.__init__`: validates the header fields, upper-cases the MAC
strings and normalizes a `None` payload to `b""`; raises `ValueError`
(modelled as `none`) when a wire invariant is violated.  The integer
arguments are `Int` because Python integers are signed. -/
def frameMk (mac_dst mac_src : String) (msg_type : String)
    (transfer_id fragment_no total_frags : Int) (data : Option (List Nat)) :
    Option Frame :=
  if (typeCode msg_type).isNone then none
  else if ¬(0 ≤ transfer_id ∧ transfer_id ≤ 0xFFFF) then none
  else if ¬((0 ≤ fragment_no ∧ fragment_no ≤ 0xFFFF) ∧
      (1 ≤ total_frags ∧ total_frags ≤ 0xFFFF)) then none
  else if fragment_no > total_frags then none
  else some
    { mac_dst := upperStr mac_dst
      mac_src := upperStr mac_src
      msg_type := msg_type
      transfer_id := transfer_id.toNat
      fragment_no := fragment_no.toNat
      total_frags := total_frags.toNat
      data := data.getD [] }

/-- `encode_mac`: upper-case, `-` → `:`, split on `:` into six two-character
parts, each parsed with `int(part, 16)` and packed with `bytes([...])`
(which rejects values outside `0..255`). -/
def encodeMac (macStr : String) : Option (List Nat) :=
  let norm := (upperStr macStr).data.map (fun c => if c = '-' then ':' else c)
  let parts := splitOnChar ':' norm
  if parts.length ≠ 6 then none
  else
    parts.foldr
      (fun part acc =>
        if part.length ≠ 2 then none
        else
          match pyIntHex part with
          | none => none
          | some v =>
            if 0 ≤ v ∧ v < 256 then
              match acc with
              | none => none
              | some rest => some (v.toNat :: rest)
            else none)
      (some [])

/-- Python `sep.join(parts)`. -/
def joinSep {α : Type} (sep : List α) : List (List α) → List α
  | [] => []
  | [p] => p
  | p :: rest => p ++ sep ++ joinSep sep rest

/-- `decode_mac`: `":".join(f"{b:02X}" for b in mac_bytes[:6])`. -/
def decodeMac (macBytes : List Nat) : String :=
  String.mk (joinSep [':'] ((macBytes.take 6).map byteHex))

/-- `Frame.to_bytes`: header, payload, then CRC-32 of everything before it.
Returns `none` where the Python raises: unencodable MAC, missing type,
oversized payload, or a header field that does not fit in a `!H` slot. -/
def toBytes (f : Frame) : Option (List Nat) :=
  match encodeMac f.mac_dst, encodeMac f.mac_src, typeCode f.msg_type with
  | some dstB, some srcB, some typeB =>
    if f.data.length > 0xFFFF then none
    else if f.transfer_id > 0xFFFF ∨ f.fragment_no > 0xFFFF ∨ f.total_frags > 0xFFFF then
      none
    else
      let header := dstB ++ srcB ++ u16be ETHERTYPE ++ [typeB] ++ u16be f.transfer_id ++
        u16be f.fragment_no ++ u16be f.total_frags ++ u16be f.data.length
      let content := header ++ f.data
      some (content ++ u32be (crc32 content % 4294967296))
  | _, _, _ => none

inductive DecErr where
  | tooShort
  | badEthertype
  | lengthMismatch
  | badCrc
  | badType
  | badHeader
deriving DecidableEq, Repr

def byteAt (l : List Nat) (i : Nat) : Nat := (l.get? i).getD 0

/-- `Frame.from_bytes`. -/
def fromBytes (raw : List Nat) : Except DecErr Frame :=
  if raw.length < HEADER_SIZE + CRC_SIZE then .error .tooShort
  else
    let macDstB := raw.take 6
    let macSrcB := (raw.drop 6).take 6
    let ethertype := parse16 (byteAt raw 12) (byteAt raw 13)
    let typeB := byteAt raw 14
    let transferId := parse16 (byteAt raw 15) (byteAt raw 16)
    let fragmentNo := parse16 (byteAt raw 17) (byteAt raw 18)
    let totalFrags := parse16 (byteAt raw 19) (byteAt raw 20)
    let payloadLen := parse16 (byteAt raw 21) (byteAt raw 22)
    if ethertype ≠ ETHERTYPE then .error .badEthertype
    else
      let expectedLen := HEADER_SIZE + payloadLen + CRC_SIZE
      if raw.length < expectedLen then .error .lengthMismatch
      else
        let payload := (raw.drop HEADER_SIZE).take payloadLen
        let crcRecv := parse32 (byteAt raw (23 + payloadLen)) (byteAt raw (24 + payloadLen))
          (byteAt raw (25 + payloadLen)) (byteAt raw (26 + payloadLen))
        let calculated := crc32 (raw.take (HEADER_SIZE + payloadLen)) % 4294967296
        if calculated ≠ crcRecv then .error .badCrc
        else
          match invTypeCode typeB with
          | none => .error .badType
          | some msgType =>
            match frameMk (decodeMac macDstB) (decodeMac macSrcB) msgType
                transferId fragmentNo totalFrags (some payload) with
            | some f => .ok f
            | none => .error .badHeader

/-! ## Round-trip facts about the MAC codec -/

theorem exists_six {α : Type} {l : List α} (h : l.length = 6) :
    ∃ a b c d e f, l = [a, b, c, d, e, f] := by
  match l, h with
  | [a, b, c, d, e, f], _ => exact ⟨a, b, c, d, e, f, rfl⟩

set_option maxRecDepth 8000 in
/-- Per-byte facts about the `"%02X"` rendering: two characters, no colon,
fixed by upper-casing and by the `-` → `:` replacement, and parsed back to
the byte value by `int(_, 16)`. -/
theorem byteHex_facts : ∀ b : Nat, b < 256 →
    (byteHex b).length = 2 ∧ ':' ∉ byteHex b ∧
    ((byteHex b).map Char.toUpper).map (fun c => if c = '-' then ':' else c) = byteHex b ∧
    pyIntHex (byteHex b) = some (b : Int) := by decide

/-- `encode_mac` inverts `decode_mac` on six-byte inputs. -/
theorem encodeMac_decodeMac (bs : List Nat) (hlen : bs.length = 6)
    (hbyte : ∀ b ∈ bs, b < 256) : encodeMac (decodeMac bs) = some bs := by
  obtain ⟨b0, b1, b2, b3, b4, b5, rfl⟩ := exists_six hlen
  simp only [List.mem_cons, List.not_mem_nil, or_false, forall_eq_or_imp, forall_eq] at hbyte
  obtain ⟨h0, h1, h2, h3, h4, h5⟩ := hbyte
  obtain ⟨l0, c0, m0, p0⟩ := byteHex_facts b0 h0
  obtain ⟨l1, c1, m1, p1⟩ := byteHex_facts b1 h1
  obtain ⟨l2, c2, m2, p2⟩ := byteHex_facts b2 h2
  obtain ⟨l3, c3, m3, p3⟩ := byteHex_facts b3 h3
  obtain ⟨l4, c4, m4, p4⟩ := byteHex_facts b4 h4
  obtain ⟨l5, c5, m5, p5⟩ := byteHex_facts b5 h5
  unfold decodeMac encodeMac upperStr
  simp only [List.take_cons, List.take_nil, List.map_cons, List.map_nil, joinSep,
    List.map_append, m0, m1, m2, m3, m4, m5, List.append_assoc, List.cons_append,
    List.nil_append]
  have hsep : (fun c => if c = '-' then ':' else c) (Char.toUpper ':') = ':' := by decide
  simp only [hsep]
  rw [splitOnChar_append ':' _ _ c0, splitOnChar_append ':' _ _ c1,
    splitOnChar_append ':' _ _ c2, splitOnChar_append ':' _ _ c3,
    splitOnChar_append ':' _ _ c4, splitOnChar_no_sep ':' _ c5]
  simp only [List.length_cons, List.length_nil, List.foldr]
  simp only [l0, l1, l2, l3, l4, l5, p0, p1, p2, p3, p4, p5]
  norm_num
  simp [h0, h1, h2, h3, h4, h5]

set_option maxRecDepth 8000 in
/-- The canonical MAC rendering is fixed by `str.upper()`. -/
theorem upperStr_decodeMac (bs : List Nat) (hlen : bs.length = 6)
    (hbyte : ∀ b ∈ bs, b < 256) : upperStr (decodeMac bs) = decodeMac bs := by
  obtain ⟨b0, b1, b2, b3, b4, b5, rfl⟩ := exists_six hlen
  simp only [List.mem_cons, List.not_mem_nil, or_false, forall_eq_or_imp, forall_eq] at hbyte
  obtain ⟨h0, h1, h2, h3, h4, h5⟩ := hbyte
  have key : ∀ b : Nat, b < 256 → (byteHex b).map Char.toUpper = byteHex b := by decide
  have hsep : Char.toUpper ':' = ':' := by decide
  unfold decodeMac upperStr
  simp only [List.take_cons, List.take_nil, List.map_cons, List.map_nil, joinSep,
    List.map_append, List.append_assoc, List.cons_append, List.nil_append,
    key b0 h0, key b1 h1, key b2 h2, key b3 h3, key b4 h4, key b5 h5, hsep]

theorem typeCode_inv {s : String} {n : Nat} (h : typeCode s = some n) :
    invTypeCode n = some s := by
  unfold typeCode at h
  by_cases e1 : s = "MSG"
  · simp [e1] at h
    subst h; simp [invTypeCode, e1]
  by_cases e2 : s = "FILE"
  · simp [e1, e2] at h
    subst h; simp [invTypeCode, e2]
  by_cases e3 : s = "CTRL"
  · simp [e1, e2, e3] at h
    subst h; simp [invTypeCode, e3]
  by_cases e4 : s = "HELLO"
  · simp [e1, e2, e3, e4] at h
    subst h; simp [invTypeCode, e4]
  by_cases e5 : s = "BROADCAST"
  · simp [e1, e2, e3, e4, e5] at h
    subst h; simp [invTypeCode, e5]
  simp [e1, e2, e3, e4, e5] at h

theorem crc32_mod_lt (data : List Nat) : crc32 data % 4294967296 < 4294967296 :=
  Nat.mod_lt _ (by norm_num)

/-- Composing `decode ∘ encode` as a single observable function. -/
def encodeThenDecode (f : Frame) : Option (Except DecErr Frame) :=
  (toBytes f).map fromBytes

set_option maxHeartbeats 1600000 in
/-- C1 (amended): for every frame whose header fields satisfy the claimed
wire invariants and whose MAC strings are in canonical form (upper-case
colon-separated hex, i.e. in the image of `decode_mac`), encoding with
`Frame.to_bytes` and decoding with `Frame.from_bytes` returns a frame equal
to the original field by field. -/
theorem c1_roundtrip_canonical (db sb : List Nat) (mt : String) (tb : Nat)
    (tid fno tot : Nat) (payload : List Nat)
    (hdb : db.length = 6) (hdbB : ∀ b ∈ db, b < 256)
    (hsb : sb.length = 6) (hsbB : ∀ b ∈ sb, b < 256)
    (htc : typeCode mt = some tb)
    (htid : tid ≤ 65535) (hfno : 1 ≤ fno) (hft : fno ≤ tot) (htot : tot ≤ 65535)
    (hpl : payload.length ≤ 65535) :
    ∃ bs, toBytes ⟨decodeMac db, decodeMac sb, mt, tid, fno, tot, payload⟩ = some bs ∧
      fromBytes bs = Except.ok ⟨decodeMac db, decodeMac sb, mt, tid, fno, tot, payload⟩ := by
  obtain ⟨d0, d1, d2, d3, d4, d5, rfl⟩ := exists_six hdb
  obtain ⟨s0, s1, s2, s3, s4, s5, rfl⟩ := exists_six hsb
  have hedb := encodeMac_decodeMac _ hdb hdbB
  have hesb := encodeMac_decodeMac _ hsb hsbB
  have hud := upperStr_decodeMac _ hdb hdbB
  have hus := upperStr_decodeMac _ hsb hsbB
  have hnp : ¬ (payload.length > 65535) := by omega
  have hnf : ¬ (tid > 65535 ∨ fno > 65535 ∨ tot > 65535) := by omega
  have henc : toBytes ⟨decodeMac [d0, d1, d2, d3, d4, d5], decodeMac [s0, s1, s2, s3, s4, s5],
      mt, tid, fno, tot, payload⟩ =
      some ((([d0, d1, d2, d3, d4, d5] ++ [s0, s1, s2, s3, s4, s5] ++ u16be ETHERTYPE ++
        [tb] ++ u16be tid ++ u16be fno ++ u16be tot ++ u16be payload.length) ++ payload) ++
        u32be (crc32 (([d0, d1, d2, d3, d4, d5] ++ [s0, s1, s2, s3, s4, s5] ++
          u16be ETHERTYPE ++ [tb] ++ u16be tid ++ u16be fno ++ u16be tot ++
          u16be payload.length) ++ payload) % 4294967296)) := by
    unfold toBytes
    simp only [hedb, hesb, htc, hnp, hnf]
    simp
  refine ⟨_, henc, ?_⟩
  -- names for the three building blocks of the encoded buffer
  set hdr : List Nat := [d0, d1, d2, d3, d4, d5] ++ [s0, s1, s2, s3, s4, s5] ++
    u16be ETHERTYPE ++ [tb] ++ u16be tid ++ u16be fno ++ u16be tot ++
    u16be payload.length with hhdr
  set c : Nat := crc32 (hdr ++ payload) % 4294967296 with hcdef
  clear_value c
  have hhdrlen : hdr.length = 23 := by simp [hhdr, u16be]
  have hclen : (u32be c).length = 4 := by simp [u32be]
  have hraww : ((hdr ++ payload) ++ u32be c).length = 27 + payload.length := by
    simp [List.length_append, hhdrlen, hclen]
    omega
  unfold fromBytes
  rw [if_neg (by rw [hraww]; simp only [HEADER_SIZE, CRC_SIZE]; omega)]
  have hb12 : byteAt ((hdr ++ payload) ++ u32be c) 12 = 136 := rfl
  have hb13 : byteAt ((hdr ++ payload) ++ u32be c) 13 = 181 := rfl
  have heth : parse16 (byteAt ((hdr ++ payload) ++ u32be c) 12)
      (byteAt ((hdr ++ payload) ++ u32be c) 13) = ETHERTYPE := by
    rw [hb12, hb13]
    norm_num [parse16, ETHERTYPE]
  rw [heth]
  rw [if_neg (by simp)]
  have htid16 : parse16 (byteAt ((hdr ++ payload) ++ u32be c) 15)
      (byteAt ((hdr ++ payload) ++ u32be c) 16) = tid := by
    exact parse16_u16be tid (by omega)
  have hfno16 : parse16 (byteAt ((hdr ++ payload) ++ u32be c) 17)
      (byteAt ((hdr ++ payload) ++ u32be c) 18) = fno := by
    exact parse16_u16be fno (by omega)
  have htot16 : parse16 (byteAt ((hdr ++ payload) ++ u32be c) 19)
      (byteAt ((hdr ++ payload) ++ u32be c) 20) = tot := by
    exact parse16_u16be tot (by omega)
  have hpl16 : parse16 (byteAt ((hdr ++ payload) ++ u32be c) 21)
      (byteAt ((hdr ++ payload) ++ u32be c) 22) = payload.length := by
    exact parse16_u16be payload.length (by omega)
  rw [hpl16]
  rw [if_neg (by rw [hraww]; simp only [HEADER_SIZE, CRC_SIZE]; omega)]
  -- the payload slice
  have hdrop : ((hdr ++ payload) ++ u32be c).drop HEADER_SIZE = payload ++ u32be c := by
    rw [List.append_assoc]
    exact List.drop_left' hhdrlen
  have hpay : (((hdr ++ payload) ++ u32be c).drop HEADER_SIZE).take payload.length
      = payload := by
    rw [hdrop]
    exact List.take_left payload (u32be c)
  -- the received CRC bytes
  have hcb : ∀ k, byteAt ((hdr ++ payload) ++ u32be c) (23 + payload.length + k)
      = byteAt (u32be c) k := by
    intro k
    unfold byteAt
    rw [List.get?_append_right (by rw [List.length_append, hhdrlen]; omega)]
    rw [show 23 + payload.length + k - ((hdr ++ payload).length) = k by
      rw [List.length_append, hhdrlen]; omega]
  have hcbAt : ∀ j k, j = 23 + payload.length + k →
      byteAt ((hdr ++ payload) ++ u32be c) j = byteAt (u32be c) k := by
    intro j k hj
    subst hj
    exact hcb k
  have hcrcv : parse32 (byteAt ((hdr ++ payload) ++ u32be c) (23 + payload.length))
      (byteAt ((hdr ++ payload) ++ u32be c) (24 + payload.length))
      (byteAt ((hdr ++ payload) ++ u32be c) (25 + payload.length))
      (byteAt ((hdr ++ payload) ++ u32be c) (26 + payload.length)) = c := by
    rw [hcbAt (23 + payload.length) 0 (by omega), hcbAt (24 + payload.length) 1 (by omega),
      hcbAt (25 + payload.length) 2 (by omega), hcbAt (26 + payload.length) 3 (by omega)]
    show parse32 (c / 16777216 % 256) (c / 65536 % 256) (c / 256 % 256) (c % 256) = c
    exact parse32_u32be c (by rw [hcdef]; exact crc32_mod_lt _)
  -- the recomputed CRC
  have htake : ((hdr ++ payload) ++ u32be c).take (HEADER_SIZE + payload.length)
      = hdr ++ payload := by
    exact List.take_left' (by rw [List.length_append, hhdrlen, HEADER_SIZE])
  have hcalc : crc32 (((hdr ++ payload) ++ u32be c).take (HEADER_SIZE + payload.length))
      % 4294967296 = c := by
    rw [htake, hcdef]
  rw [if_neg (by rw [hcalc, hcrcv]; simp)]
  -- type byte and MACs
  have htb : byteAt ((hdr ++ payload) ++ u32be c) 14 = tb := rfl
  rw [htb, typeCode_inv htc]
  have hmacd : ((hdr ++ payload) ++ u32be c).take 6 = [d0, d1, d2, d3, d4, d5] := rfl
  have hmacs : ((((hdr ++ payload) ++ u32be c)).drop 6).take 6
      = [s0, s1, s2, s3, s4, s5] := rfl
  rw [hmacd, hmacs, htid16, hfno16, htot16, hpay]
  -- the constructor succeeds and reproduces the frame
  have hmk : frameMk (decodeMac [d0, d1, d2, d3, d4, d5]) (decodeMac [s0, s1, s2, s3, s4, s5])
      mt (tid : Int) (fno : Int) (tot : Int) (some payload) =
      some ⟨decodeMac [d0, d1, d2, d3, d4, d5], decodeMac [s0, s1, s2, s3, s4, s5],
        mt, tid, fno, tot, payload⟩ := by
    unfold frameMk
    rw [if_neg (by simp [htc])]
    rw [if_neg (by omega)]
    rw [if_neg (by omega)]
    rw [if_neg (by omega)]
    simp only [hud, hus, Option.getD_some, Int.toNat_natCast]
  simp only [hmk]

/-- The round trip holds at a concrete canonical frame. -/
theorem c1_roundtrip_canonical_witness :
    ∃ bs, toBytes ⟨decodeMac [170, 187, 204, 221, 238, 255], decodeMac [0, 17, 34, 51, 68, 85],
        "MSG", 1, 1, 1, [104, 105]⟩ = some bs ∧
      fromBytes bs = Except.ok ⟨decodeMac [170, 187, 204, 221, 238, 255],
        decodeMac [0, 17, 34, 51, 68, 85], "MSG", 1, 1, 1, [104, 105]⟩ :=
  c1_roundtrip_canonical [170, 187, 204, 221, 238, 255] [0, 17, 34, 51, 68, 85] "MSG" 1 1 1 1
    [104, 105] (by decide) (by decide) (by decide) (by decide) (by decide) (by decide)
    (by decide) (by decide) (by decide) (by decide)

deriving instance DecidableEq for Except

/-- A frame accepted by `Frame.__init__` whose destination MAC uses `-`
separators: it satisfies every validity condition listed in the claim. -/
def frameDash : Frame := ⟨"AA-BB-CC-DD-EE-FF", "00:11:22:33:44:55", "MSG", 1, 1, 1, []⟩

set_option maxRecDepth 100000 in
/-- C1 counterexample: `frameDash` is constructible and satisfies the
claim's validity conditions (recognized type, uint16 transfer id,
`1 ≤ fragment_no ≤ total_frags ≤ 65535`, payload within bounds), yet
`decode (encode frameDash)` is not equal to `frameDash` field by field:
decoding returns the MAC in canonical `:`-separated form. -/
theorem c1_counterexample :
    frameMk "AA-BB-CC-DD-EE-FF" "00:11:22:33:44:55" "MSG" 1 1 1 (some []) = some frameDash ∧
    (typeCode frameDash.msg_type).isSome ∧ frameDash.transfer_id ≤ 65535 ∧
    1 ≤ frameDash.fragment_no ∧ frameDash.fragment_no ≤ frameDash.total_frags ∧
    frameDash.total_frags ≤ 65535 ∧ frameDash.data.length ≤ 65535 ∧
    encodeThenDecode frameDash ≠ some (Except.ok frameDash) := by decide

/-! ## C4: the short-buffer check -/

/-- C4 counterexample: a 25-byte buffer is rejected as `TooShort`, although
the claim states that `TooShort` occurs exactly below 25 bytes. -/
theorem c4_counterexample :
    (List.replicate 25 0).length = 25 ∧
    fromBytes (List.replicate 25 0) = Except.error DecErr.tooShort := by decide

/-- The concrete minimal frame: 23-byte header plus 4-byte CRC. -/
def minFrameBytes : List Nat :=
  [0, 0, 0, 0, 0, 0, 0, 0, 0, 0, 0, 0, 136, 181, 1, 0, 0, 0, 1, 0, 1, 0, 0, 252, 132, 231, 39]

set_option maxRecDepth 100000 in
/-- C4 (amended): `from_bytes` fails with `TooShort` exactly when the buffer
has fewer than `HEADER_SIZE(23) + 4 = 27` bytes; every accepted buffer has at
least 27 bytes, and a 27-byte frame is accepted, so the minimum on-wire frame
size is 27 bytes, not 25. -/
theorem c4_tooShort_iff :
    (∀ raw : List Nat, fromBytes raw = Except.error DecErr.tooShort ↔ raw.length < 27) ∧
    (∀ raw f, fromBytes raw = Except.ok f → 27 ≤ raw.length) ∧
    minFrameBytes.length = 27 ∧
    fromBytes minFrameBytes =
      Except.ok ⟨decodeMac [0, 0, 0, 0, 0, 0], decodeMac [0, 0, 0, 0, 0, 0],
        "MSG", 0, 1, 1, []⟩ := by
  refine ⟨fun raw => ⟨fun h => ?_, fun h => ?_⟩, fun raw f h => ?_, by decide, by decide⟩
  · by_contra hlen
    push_neg at hlen
    revert h
    unfold fromBytes
    rw [if_neg (by simp only [HEADER_SIZE, CRC_SIZE]; omega)]
    simp only [HEADER_SIZE, CRC_SIZE]
    split
    · simp
    · split
      · simp
      · split
        · simp
        · split
          · simp
          · split <;> simp
  · unfold fromBytes
    rw [if_pos (by simp only [HEADER_SIZE, CRC_SIZE]; omega)]
  · by_contra hlen
    push_neg at hlen
    unfold fromBytes at h
    rw [if_pos (by simp only [HEADER_SIZE, CRC_SIZE]; omega)] at h
    exact absurd h (by simp)

/-- Applying the amended C4 at concrete buffers. -/
theorem c4_tooShort_iff_witness :
    fromBytes (List.replicate 26 7) = Except.error DecErr.tooShort :=
  (c4_tooShort_iff.1 (List.replicate 26 7)).mpr (by decide)

/-! ## C10: the checked constructor -/

/-- C10: `Frame.__init__` rejects exactly the argument tuples that violate a
wire invariant (unknown type, out-of-range `transfer_id`, `fragment_no` or
`total_frags`, or `fragment_no > total_frags`); every constructed frame
satisfies `fragment_no ≤ total_frags` and `total_frags ≥ 1`, and a `None`
payload is normalized to the empty byte string. -/
theorem c10_constructor_spec :
    (∀ (md ms mt : String) (tid fno tot : Int) (dat : Option (List Nat)),
      (frameMk md ms mt tid fno tot dat).isSome ↔
        ((typeCode mt).isSome ∧ 0 ≤ tid ∧ tid ≤ 65535 ∧ 0 ≤ fno ∧ fno ≤ 65535 ∧
          1 ≤ tot ∧ tot ≤ 65535 ∧ fno ≤ tot)) ∧
    (∀ (md ms mt : String) (tid fno tot : Int) (dat : Option (List Nat)) (f : Frame),
      frameMk md ms mt tid fno tot dat = some f →
        f.fragment_no ≤ f.total_frags ∧ 1 ≤ f.total_frags ∧ (dat = none → f.data = [])) := by
  constructor
  · intro md ms mt tid fno tot dat
    unfold frameMk
    constructor
    · intro h
      by_cases a1 : (typeCode mt).isNone
      · rw [if_pos a1] at h; simp at h
      rw [if_neg a1] at h
      by_cases a2 : ¬(0 ≤ tid ∧ tid ≤ 65535)
      · rw [if_pos a2] at h; simp at h
      rw [if_neg a2] at h
      by_cases a3 : ¬((0 ≤ fno ∧ fno ≤ 65535) ∧ 1 ≤ tot ∧ tot ≤ 65535)
      · rw [if_pos a3] at h; simp at h
      rw [if_neg a3] at h
      by_cases a4 : fno > tot
      · rw [if_pos a4] at h; simp at h
      rw [not_not] at a2 a3
      refine ⟨?_, by omega, by omega, by omega, by omega, by omega, by omega, by omega⟩
      simpa [Option.isSome_iff_ne_none, Option.isNone_iff_eq_none] using a1
    · intro h
      obtain ⟨h1, h2, h3, h4, h5, h6, h7, h8⟩ := h
      rw [if_neg (by simp_all [Option.isSome_iff_ne_none, Option.isNone_iff_eq_none]),
        if_neg (by omega), if_neg (by omega), if_neg (by omega)]
      simp
  · intro md ms mt tid fno tot dat f h
    unfold frameMk at h
    repeat split at h
    any_goals simp_all
    obtain ⟨⟨h1, h2⟩, ⟨h3, h4, h5, h6⟩, h7, h8⟩ := h
    subst h8
    refine ⟨?_, ?_, fun hd => ?_⟩
    · show fno.toNat ≤ tot.toNat
      omega
    · show 1 ≤ tot.toNat
      omega
    · subst hd
      rfl

/-- Applying C10 at concrete inputs: a valid tuple with a `None` payload is
accepted and normalized. -/
theorem c10_constructor_spec_witness :
    (frameMk "FF:FF:FF:FF:FF:FF" "00:11:22:33:44:55" "BROADCAST" 5 1 2 none).isSome :=
  (c10_constructor_spec.1 "FF:FF:FF:FF:FF:FF" "00:11:22:33:44:55" "BROADCAST" 5 1 2 none).mpr
    (by decide)

/-! ## The retry manager (`AckManagerThread` in `src/core/messaging.py`)

Times are modelled as integers (seconds); the Python code uses
`time.time()` floats and the constants `TIMEOUT = 15.0`, `MAX_RETRIES = 3`.
The pending table `_esperando_ack` is a dict keyed by
`(transfer_id, fragment_no)` — `fragment_no` is 0 for non-FILE frames —
whose values are `(timestamp, retries, frame, descripcion)` tuples.
Python integers are signed, so keys are pairs of `Int`. -/

def TIMEOUT : Int := 15

def MAX_RETRIES : Nat := 3

structure AckEntry where
  timestamp : Int
  retries : Nat
  frame : Frame
  descripcion : String
deriving DecidableEq, Repr

abbrev AckKey : Type := Int × Int

abbrev AckTable : Type := List (AckKey × AckEntry)

/-- The key computed at the top of `registrar_mensaje`. -/
def ackKey (f : Frame) : AckKey :=
  if f.msg_type = "FILE" then ((f.transfer_id : Int), (f.fragment_no : Int))
  else ((f.transfer_id : Int), 0)

/-- `registrar_mensaje`: returns the accepted flag, the new pending table and
the frames put on the outbound queue. -/
def registrarMensaje (f : Frame) (descripcion : String) (now : Int) (tbl : AckTable) :
    Bool × AckTable × List Frame :=
  if (dictLookup (ackKey f) tbl).isSome then (false, tbl, [])
  else (true, dictSet (ackKey f) ⟨now, 0, f, descripcion⟩ tbl, [f])

/-- `handle_ack`: returns the matched flag, the new pending table and the
strings put on the notification queue. -/
def handleAck (ackId fragmentNo : Int) (tbl : AckTable) : Bool × AckTable × List String :=
  match dictLookup (ackId, fragmentNo) tbl with
  | some e =>
    (true, dictRemove (ackId, fragmentNo) tbl,
      if e.frame.msg_type = "FILE" ∧ fragmentNo = (e.frame.total_frags : Int) then
        ["Transferencia " ++ toString ackId ++ " completada: " ++ e.descripcion]
      else [])
  | none => (false, tbl, [])

/-- The failure notification emitted by the sweeper. -/
def failNotif (descripcion macDst : String) : String :=
  "Error: No se pudo entregar " ++ descripcion ++ " a " ++ macDst

structure SweepResult where
  table : AckTable
  resends : List Frame
  notifs : List String
deriving DecidableEq, Repr

/-- One pass of the sweeper loop in `AckManagerThread.run`: entries whose
timeout expired are retransmitted with `retries + 1` and a fresh timestamp
while `retries < MAX_RETRIES`, and otherwise removed with a failure
notification.  (Python updates values during iteration and deletes the
expired keys afterwards; one structural pass is equivalent.) -/
def sweepStep (now : Int) : AckTable → SweepResult
  | [] => ⟨[], [], []⟩
  | (k, e) :: rest =>
    let r := sweepStep now rest
    if now - e.timestamp > TIMEOUT then
      if e.retries < MAX_RETRIES then
        ⟨(k, { e with timestamp := now, retries := e.retries + 1 }) :: r.table,
          e.frame :: r.resends, r.notifs⟩
      else
        ⟨r.table, r.resends, failNotif e.descripcion e.frame.mac_dst :: r.notifs⟩
    else ⟨(k, e) :: r.table, r.resends, r.notifs⟩

/-- C6: `register(frame, description)` returns `false` and leaves both the
pending table and the outbound queue untouched when the frame's key is
already pending; otherwise it inserts `(now, retries = 0, frame, description)`
under the key and enqueues exactly one copy of the frame. -/
theorem c6_register_spec (f : Frame) (d : String) (now : Int) (tbl : AckTable) :
    ((dictLookup (ackKey f) tbl).isSome →
      registrarMensaje f d now tbl = (false, tbl, [])) ∧
    (dictLookup (ackKey f) tbl = none →
      registrarMensaje f d now tbl = (true, dictSet (ackKey f) ⟨now, 0, f, d⟩ tbl, [f]) ∧
      dictLookup (ackKey f) (registrarMensaje f d now tbl).2.1 = some ⟨now, 0, f, d⟩ ∧
      ∀ k2, k2 ≠ ackKey f →
        dictLookup k2 (registrarMensaje f d now tbl).2.1 = dictLookup k2 tbl) := by
  constructor
  · intro h
    unfold registrarMensaje
    rw [if_pos h]
  · intro h
    have hn : ¬(dictLookup (ackKey f) tbl).isSome = true := by simp [h]
    refine ⟨by unfold registrarMensaje; rw [if_neg hn], ?_, ?_⟩
    · unfold registrarMensaje
      rw [if_neg hn]
      exact dictLookup_set_self _ _ _
    · intro k2 hk2
      unfold registrarMensaje
      rw [if_neg hn]
      exact dictLookup_set_ne _ _ hk2

/-- Applying C6 on the empty pending table. -/
theorem c6_register_spec_witness :
    registrarMensaje ⟨"FF:FF:FF:FF:FF:FF", "00:11:22:33:44:55", "MSG", 9, 1, 1, []⟩ "saludo" 100 []
      = (true, [((9, 0), ⟨100, 0, ⟨"FF:FF:FF:FF:FF:FF", "00:11:22:33:44:55", "MSG", 9, 1, 1, []⟩,
          "saludo"⟩)], [⟨"FF:FF:FF:FF:FF:FF", "00:11:22:33:44:55", "MSG", 9, 1, 1, []⟩]) :=
  ((c6_register_spec ⟨"FF:FF:FF:FF:FF:FF", "00:11:22:33:44:55", "MSG", 9, 1, 1, []⟩
    "saludo" 100 []).2 (by decide)).1

/-! ## Decimal rendering and parsing facts, used for CTRL payloads -/

theorem decDigitChar_facts : ∀ d : Nat, d < 10 →
    isDecDigitChar (Char.ofNat (48 + d)) = true ∧ (Char.ofNat (48 + d)).toNat = 48 + d ∧
    Char.ofNat (48 + d) ≠ '|' ∧ isPyWs (Char.ofNat (48 + d)) = false := by decide

theorem decCharsAux_mem (f : Nat) : ∀ (n : Nat), ∀ c ∈ decCharsAux f n,
    ∃ d, d < 10 ∧ c = Char.ofNat (48 + d) := by
  induction f with
  | zero =>
    intro n c hc
    cases n <;> simp [decCharsAux] at hc
  | succ f2 ih =>
    intro n c hc
    cases n with
    | zero => simp [decCharsAux] at hc
    | succ m =>
      simp only [decCharsAux, List.mem_append, List.mem_singleton] at hc
      rcases hc with hc | hc
      · exact ih _ c hc
      · exact ⟨(m + 1) % 10, Nat.mod_lt _ (by norm_num), hc⟩

theorem decChars_mem_facts (x : Nat) :
    ∀ c ∈ decChars x, isDecDigitChar c = true ∧ c.toNat < 128 ∧ c ≠ '|' ∧
      isPyWs c = false := by
  intro c hc
  unfold decChars at hc
  by_cases hx : x = 0
  · rw [if_pos hx] at hc
    simp only [List.mem_singleton] at hc
    subst hc
    decide
  · rw [if_neg hx] at hc
    obtain ⟨d, hdlt, rfl⟩ := decCharsAux_mem x x c hc
    obtain ⟨f1, f2, f3, f4⟩ := decDigitChar_facts d hdlt
    exact ⟨f1, by omega, f3, f4⟩

theorem pyStrip_noop (l : List Char) (h : ∀ c ∈ l, isPyWs c = false) : pyStrip l = l := by
  unfold pyStrip
  have h1 : l.dropWhile isPyWs = l := by
    cases l with
    | nil => rfl
    | cons a t => simp [List.dropWhile_cons, h a (by simp)]
  rw [h1]
  have h2 : l.reverse.dropWhile isPyWs = l.reverse := by
    cases hr : l.reverse with
    | nil => rfl
    | cons a t =>
      have ha : a ∈ l := by
        rw [← List.mem_reverse, hr]
        simp
      simp [List.dropWhile_cons, h a ha]
  rw [h2, List.reverse_reverse]

theorem digitsUAux_digits (cs : List Char) : ∀ acc, (∀ c ∈ cs, isDecDigitChar c = true) →
    digitsUAux isDecDigitChar decVal 10 acc cs =
      some (cs.foldl (fun a c => a * 10 + decVal c) acc) := by
  induction cs with
  | nil => intro acc h; rfl
  | cons c rest ih =>
    intro acc h
    unfold digitsUAux
    rw [if_pos (h c (by simp))]
    rw [ih _ (fun c2 hc2 => h c2 (by simp [hc2]))]
    simp [List.foldl_cons]

theorem parseDigitRun_digits (cs : List Char) (hne : cs ≠ [])
    (h : ∀ c ∈ cs, isDecDigitChar c = true) :
    parseDigitRun isDecDigitChar decVal 10 cs =
      some (cs.foldl (fun a c => a * 10 + decVal c) 0) := by
  cases cs with
  | nil => exact absurd rfl hne
  | cons c rest =>
    simp only [parseDigitRun]
    rw [if_pos (h c (by simp))]
    rw [digitsUAux_digits rest _ (fun c2 hc2 => h c2 (by simp [hc2]))]
    simp [List.foldl_cons]

theorem decChars_ne_nil (x : Nat) : decChars x ≠ [] := by
  unfold decChars
  by_cases hx : x = 0
  · simp [hx]
  · rw [if_neg hx]
    have hx1 : 1 ≤ x := by omega
    cases x with
    | zero => omega
    | succ m => simp [decCharsAux]

theorem decCharsAux_foldl (f : Nat) : ∀ n, n ≤ f →
    (decCharsAux f n).foldl (fun a c => a * 10 + decVal c) 0 = n := by
  induction f with
  | zero =>
    intro n hn
    interval_cases n
    rfl
  | succ f2 ih =>
    intro n hn
    cases n with
    | zero => rfl
    | succ m =>
      have hdiv : (m + 1) / 10 ≤ f2 := by omega
      have hmod := (decDigitChar_facts ((m + 1) % 10) (Nat.mod_lt _ (by norm_num))).2.1
      simp only [decCharsAux, List.foldl_append, ih _ hdiv, List.foldl_cons, List.foldl_nil]
      unfold decVal
      rw [hmod]
      omega

theorem decChars_foldl (x : Nat) :
    (decChars x).foldl (fun a c => a * 10 + decVal c) 0 = x := by
  unfold decChars
  by_cases hx : x = 0
  · rw [if_pos hx, hx]; decide
  · rw [if_neg hx]
    exact decCharsAux_foldl x x (le_refl x)

/-- Python `int(str(x))` recovers `x`. -/
theorem pyIntDec_decChars (x : Nat) : pyIntDec (decChars x) = some (x : Int) := by
  unfold pyIntDec parseSigned
  rw [pyStrip_noop _ (fun c hc => (decChars_mem_facts x c hc).2.2.2)]
  split
  · rename_i rest heq
    have hp : ('+') ∈ decChars x := by rw [heq]; simp
    have := (decChars_mem_facts x '+' hp).1
    simp [isDecDigitChar] at this
  · rename_i rest heq
    have hp : ('-') ∈ decChars x := by rw [heq]; simp
    have := (decChars_mem_facts x '-' hp).1
    simp [isDecDigitChar] at this
  · rw [parseDigitRun_digits _ (decChars_ne_nil x) (fun c hc => (decChars_mem_facts x c hc).1)]
    rw [decChars_foldl]
    rfl

/-! ## UTF-8 facts for ASCII strings -/

theorem utf8EncodeChar_ascii (c : Char) (h : c.toNat < 128) : utf8EncodeChar c = [c.toNat] := by
  unfold utf8EncodeChar
  rw [if_pos h]

theorem asciiFlatten (l : List Char) (h : ∀ c ∈ l, c.toNat < 128) :
    (l.map utf8EncodeChar).flatten = l.map Char.toNat := by
  induction l with
  | nil => rfl
  | cons c rest ih =>
    simp only [List.map_cons, List.flatten_cons, utf8EncodeChar_ascii c (h c (by simp)),
      List.singleton_append]
    rw [ih (fun c2 h2 => h c2 (by simp [h2]))]

theorem utf8DecodeOne_asciiByte (b : Nat) (rest : List Nat) (h : b < 128) :
    utf8DecodeOne (b :: rest) = some (Char.ofNat b, 1) := by
  simp only [utf8DecodeOne]
  rw [if_pos h]

theorem utf8Decode_asciiChars (l : List Char) (h : ∀ c ∈ l, c.toNat < 128) :
    utf8Decode (l.map Char.toNat) = some l := by
  induction l with
  | nil => rfl
  | cons c rest ih =>
    have hc := h c (by simp)
    unfold utf8Decode
    simp only [List.map_cons, List.length_cons]
    simp only [utf8DecodeLoop, utf8DecodeOne_asciiByte _ _ hc, List.drop_succ_cons,
      List.drop_zero]
    have ihx := ih (fun c2 h2 => h c2 (by simp [h2]))
    unfold utf8Decode at ihx
    rw [ihx]
    simp [Char.ofNat_toNat]

theorem utf8Decode_ascii (l : List Char) (h : ∀ c ∈ l, c.toNat < 128) :
    utf8Decode ((l.map utf8EncodeChar).flatten) = some l := by
  rw [asciiFlatten l h]
  exact utf8Decode_asciiChars l h

theorem strBytes_data (l : List Char) : strBytes (String.mk l) = (l.map utf8EncodeChar).flatten := rfl

/-! ## The router's CTRL dispatch (`RouterThread.run`, CTRL branch)

The payload text is decoded as UTF-8 and split on `|`; `ack|<id>` resolves
to `handle_ack(id)` (fragment 0), `file_ack|<tid>|<frag>` with exactly three
fields resolves to `handle_file_ack(tid, frag) = handle_ack(tid, frag)`, and
`nack`, unknown commands, short payloads or unparsable integers leave the
pending table unchanged (the `except` swallows decode and `int()` errors). -/
def routeCtrl (payload : List Nat) (tbl : AckTable) : AckTable × List String :=
  match utf8Decode payload with
  | none => (tbl, [])
  | some cs =>
    match splitOnChar '|' cs with
    | cmd :: param :: rest =>
      if cmd = "ack".data then
        match pyIntDec param with
        | some n => ((handleAck n 0 tbl).2.1, (handleAck n 0 tbl).2.2)
        | none => (tbl, [])
      else if cmd = "file_ack".data then
        match rest with
        | [fragStr] =>
          match pyIntDec param, pyIntDec fragStr with
          | some t, some fr => ((handleAck t fr tbl).2.1, (handleAck t fr tbl).2.2)
          | _, _ => (tbl, [])
        | _ => (tbl, [])
      else (tbl, [])
    | _ => (tbl, [])

/-- The on-wire CTRL payload `file_ack|<x>|1`. -/
def fileAckPayload (x : Nat) : List Nat :=
  strBytes (String.mk ("file_ack|".data ++ decChars x ++ "|1".data))

/-- C2: the pending table is keyed by the pair `(transfer_id, fragment_no)`
(0 for non-FILE frames).  Processing the CTRL payload `file_ack|X|1` does
not remove a pending entry keyed `(X, 0)`, and `handle_ack` only ever
removes the exactly matching key. -/
theorem c2_pending_key_is_pair :
    (∀ (x : Nat) (tbl : AckTable) (e : AckEntry),
      dictLookup ((x : Int), 0) tbl = some e → e.frame.msg_type ≠ "FILE" →
      dictLookup ((x : Int), 0) (routeCtrl (fileAckPayload x) tbl).1 = some e) ∧
    (∀ (a b : Int) (tbl : AckTable) (k : AckKey), k ≠ (a, b) →
      dictLookup k (handleAck a b tbl).2.1 = dictLookup k tbl) := by
  have hAckNe : ∀ (a b : Int) (tbl : AckTable) (k : AckKey), k ≠ (a, b) →
      dictLookup k (handleAck a b tbl).2.1 = dictLookup k tbl := by
    intro a b tbl k hk
    unfold handleAck
    cases hl : dictLookup (a, b) tbl with
    | none => rfl
    | some e2 => exact dictLookup_remove_ne tbl hk
  refine ⟨?_, hAckNe⟩
  intro x tbl e he hnf
  have h1 : ∀ c ∈ "file_ack|".data, c.toNat < 128 := by decide
  have h2 : ∀ c ∈ "|1".data, c.toNat < 128 := by decide
  have hascii : ∀ c ∈ ("file_ack|".data ++ decChars x ++ "|1".data), c.toNat < 128 := by
    intro c hc
    simp only [List.append_assoc, List.mem_append] at hc
    rcases hc with hc | hc | hc
    · exact h1 c hc
    · exact (decChars_mem_facts x c hc).2.1
    · exact h2 c hc
  unfold routeCtrl fileAckPayload
  rw [strBytes_data, utf8Decode_ascii _ hascii]
  have hshape : "file_ack|".data ++ decChars x ++ "|1".data
      = "file_ack".data ++ '|' :: (decChars x ++ '|' :: ['1']) := by
    have : decChars x ++ "|1".data = decChars x ++ '|' :: ['1'] := rfl
    simp only [List.append_assoc, this]
    rfl
  rw [hshape]
  simp only []
  rw [splitOnChar_append '|' _ _ (by decide),
    splitOnChar_append '|' _ _
      (fun hc => by simpa using (decChars_mem_facts x '|' hc).2.2.1),
    splitOnChar_no_sep '|' _ (by decide)]
  simp only [if_neg (show ¬ ("file_ack".data = "ack".data) by decide),
    if_pos (show ("file_ack".data = "file_ack".data) from rfl),
    pyIntDec_decChars x, show pyIntDec ['1'] = some 1 by decide, if_true]
  rw [hAckNe (x : Int) 1 tbl ((x : Int), 0) (by simp)]
  exact he

/-- Applying C2 at a concrete pending MSG entry with `X = 5`. -/
theorem c2_pending_key_is_pair_witness :
    dictLookup (((5 : Nat) : Int), 0)
      (routeCtrl (fileAckPayload 5)
        [((((5 : Nat) : Int), 0),
          ⟨50, 0, ⟨"FF:FF:FF:FF:FF:FF", "00:11:22:33:44:55", "MSG", 5, 1, 1, []⟩, "m"⟩)]).1
      = some ⟨50, 0, ⟨"FF:FF:FF:FF:FF:FF", "00:11:22:33:44:55", "MSG", 5, 1, 1, []⟩, "m"⟩ :=
  c2_pending_key_is_pair.1 5 _ _ (by decide) (by decide)

/-! ## C3: retry exhaustion -/

/-- The pending table right after registering a frame on an empty manager. -/
def retryT0 (f : Frame) (d : String) (t0 : Int) : AckTable :=
  (registrarMensaje f d t0 []).2.1

/-- Successive sweeps over that single never-acknowledged entry. -/
def retryS1 (f : Frame) (d : String) (t0 t1 : Int) : SweepResult :=
  sweepStep t1 (retryT0 f d t0)

def retryS2 (f : Frame) (d : String) (t0 t1 t2 : Int) : SweepResult :=
  sweepStep t2 (retryS1 f d t0 t1).table

def retryS3 (f : Frame) (d : String) (t0 t1 t2 t3 : Int) : SweepResult :=
  sweepStep t3 (retryS2 f d t0 t1 t2).table

def retryS4 (f : Frame) (d : String) (t0 t1 t2 t3 t4 : Int) : SweepResult :=
  sweepStep t4 (retryS3 f d t0 t1 t2 t3).table

/-- C3: a frame registered at `t0` and never acknowledged is re-enqueued by
the sweeper exactly `MAX_RETRIES = 3` times — so with the send at
registration it is put on the wire 4 times — after which the fourth expiry
removes the entry and emits a failure notification whose text ends with the
destination MAC. -/
theorem c3_retry_exhaustion (f : Frame) (d : String) (t0 t1 t2 t3 t4 : Int)
    (h1 : t1 - t0 > TIMEOUT) (h2 : t2 - t1 > TIMEOUT) (h3 : t3 - t2 > TIMEOUT)
    (h4 : t4 - t3 > TIMEOUT) :
    (registrarMensaje f d t0 []).2.2 = [f] ∧
    (retryS1 f d t0 t1).resends = [f] ∧ (retryS1 f d t0 t1).notifs = [] ∧
    (retryS2 f d t0 t1 t2).resends = [f] ∧ (retryS2 f d t0 t1 t2).notifs = [] ∧
    (retryS3 f d t0 t1 t2 t3).resends = [f] ∧ (retryS3 f d t0 t1 t2 t3).notifs = [] ∧
    (retryS4 f d t0 t1 t2 t3 t4).resends = [] ∧
    (retryS4 f d t0 t1 t2 t3 t4).table = [] ∧
    (retryS4 f d t0 t1 t2 t3 t4).notifs = [failNotif d f.mac_dst] ∧
    (∃ p, failNotif d f.mac_dst = p ++ f.mac_dst) := by
  have hreg : registrarMensaje f d t0 [] = (true, [(ackKey f, ⟨t0, 0, f, d⟩)], [f]) := rfl
  have hs1 : retryS1 f d t0 t1 = ⟨[(ackKey f, ⟨t1, 1, f, d⟩)], [f], []⟩ := by
    unfold retryS1 retryT0
    rw [hreg]
    simp [sweepStep, h1, show (0 : Nat) < MAX_RETRIES by decide]
  have hs2 : retryS2 f d t0 t1 t2 = ⟨[(ackKey f, ⟨t2, 2, f, d⟩)], [f], []⟩ := by
    unfold retryS2
    rw [hs1]
    simp [sweepStep, h2, show (1 : Nat) < MAX_RETRIES by decide]
  have hs3 : retryS3 f d t0 t1 t2 t3 = ⟨[(ackKey f, ⟨t3, 3, f, d⟩)], [f], []⟩ := by
    unfold retryS3
    rw [hs2]
    simp [sweepStep, h3, show (2 : Nat) < MAX_RETRIES by decide]
  have hs4 : retryS4 f d t0 t1 t2 t3 t4 = ⟨[], [], [failNotif d f.mac_dst]⟩ := by
    unfold retryS4
    rw [hs3]
    simp [sweepStep, h4, show ¬((3 : Nat) < MAX_RETRIES) by decide]
  rw [hreg, hs1, hs2, hs3, hs4]
  refine ⟨rfl, rfl, rfl, rfl, rfl, rfl, rfl, rfl, rfl, rfl, ?_⟩
  exact ⟨("Error: No se pudo entregar " ++ d) ++ " a ", rfl⟩

/-- Applying C3 at a concrete MSG frame with sweeps at 16-second intervals. -/
theorem c3_retry_exhaustion_witness :
    (retryS4 ⟨"FF:FF:FF:FF:FF:FF", "00:11:22:33:44:55", "MSG", 2, 1, 1, []⟩ "msg" 0 16 32 48 64)
      = ⟨[], [], [failNotif "msg" "FF:FF:FF:FF:FF:FF"]⟩ := by
  have h := c3_retry_exhaustion ⟨"FF:FF:FF:FF:FF:FF", "00:11:22:33:44:55", "MSG", 2, 1, 1, []⟩
    "msg" 0 16 32 48 64 (by decide) (by decide) (by decide) (by decide)
  obtain ⟨-, -, -, -, -, -, -, hr, ht, hn, -⟩ := h
  cases hs : retryS4 ⟨"FF:FF:FF:FF:FF:FF", "00:11:22:33:44:55", "MSG", 2, 1, 1, []⟩
    "msg" 0 16 32 48 64
  rw [hs] at hr ht hn
  simp_all

/-! ## The file assembler (`FileAssemblerManagerThread`)

`_active_transfers` is a dict keyed by `transfer_id` ALONE (an `int`), each
value holding the declared filename, `total_frags`, a fragment_no → bytes
dict, `last_seen`, and the source MAC.  Assembly success is modelled as the
emitted `(filename, contents)` pair; the on-disk path de-duplication counter
(`name_1.ext`, ...) and I/O failure cleanup are filesystem effects outside
the embedding. -/

structure TransferInfo where
  filename : List Char
  total_frags : Nat
  fragments : List (Nat × List Nat)
  last_seen : Int
  mac_src : String
deriving DecidableEq, Repr

abbrev TransferTable := List (Nat × TransferInfo)

/-- The byte value of `|`. -/
def pipeByte : Nat := 124

/-- Characters kept by the sanitizer in `_assemble_file`:
`c.isalnum() or c in (' ', '-', '_', '.')` (ASCII reading of `isalnum`). -/
def keepFileChar (c : Char) : Bool :=
  c.isAlphanum || c = ' ' || c = '-' || c = '_' || c = '.'

/-- Filename actually used by `_assemble_file`: sanitize, strip, and fall
back to `file_<tid>` when the result is empty. -/
def sanitizeFilename (tid : Nat) (filename : List Char) : List Char :=
  let s := pyStrip (filename.filter keepFileChar)
  if s = [] then "file_".data ++ decChars tid else s

/-- Concatenate fragments `i, i+1, ...` (`cnt` of them); `none` when one is
missing — `_assemble_file` then returns `False` and keeps the entry. -/
def fragConcat (frs : List (Nat × List Nat)) : Nat → Nat → Option (List Nat)
  | 0, _ => some []
  | cnt + 1, i =>
    match dictLookup i frs with
    | none => none
    | some chunk => (fragConcat frs cnt (i + 1)).map (fun rest => chunk ++ rest)

/-- `_assemble_file tid`: on success the entry is removed and the written
file is emitted as a `(filename, contents)` pair. -/
def assembleFile (tid : Nat) (tbl : TransferTable) :
    Bool × TransferTable × List (List Char × List Nat) :=
  match dictLookup tid tbl with
  | none => (false, tbl, [])
  | some info =>
    match fragConcat info.fragments info.total_frags 1 with
    | none => (false, tbl, [])
    | some content => (true, dictRemove tid tbl, [(sanitizeFilename tid info.filename, content)])

/-- `_process_fragment`. -/
def processFragment (now : Int) (frame : Frame) (tbl : TransferTable) :
    Bool × TransferTable × List (List Char × List Nat) :=
  let tid := frame.transfer_id
  match dictLookup tid tbl with
  | none =>
    if frame.fragment_no ≠ 1 then (false, tbl, [])
    else if pipeByte ∉ frame.data then (false, tbl, [])
    else
      -- frame.data.split(b'|', 1)
      let header := frame.data.takeWhile (fun b => b ≠ pipeByte)
      let rest := (frame.data.dropWhile (fun b => b ≠ pipeByte)).drop 1
      let filename := pyStrip (utf8DecodeReplace header)
      if filename = [] then (false, tbl, [])
      else
        let tbl2 := dictSet tid ⟨filename, frame.total_frags, [(1, rest)], now, frame.mac_src⟩ tbl
        if frame.total_frags = 1 then assembleFile tid tbl2
        else (true, tbl2, [])
  | some info =>
    if info.total_frags ≠ frame.total_frags then (false, tbl, [])
    else if (dictLookup frame.fragment_no info.fragments).isSome then (true, tbl, [])
    else
      let info2 := { info with
        fragments := dictSet frame.fragment_no frame.data info.fragments
        last_seen := now }
      let tbl2 := dictSet tid info2 tbl
      if info2.fragments.length = info2.total_frags then assembleFile tid tbl2
      else (true, tbl2, [])

set_option maxRecDepth 100000 in
/-- C5 is violated by the code: the assembler keys `_active_transfers` by
`transfer_id` alone.  Two first fragments with the same 16-bit transfer id
arriving from two different source MACs are merged into a single active
transfer: the second is treated as a duplicate fragment of the first, its
filename and bytes are discarded, and the table keeps one entry whose
`mac_src` is the first sender. -/
theorem c5_transfer_key_collision :
    (processFragment 0 ⟨"CC:CC:CC:CC:CC:CC", "AA:AA:AA:AA:AA:AA", "FILE", 5, 1, 2,
        strBytes "a.txt|xx"⟩ []).2.1
      = [(5, ⟨"a.txt".data, 2, [(1, strBytes "xx")], 0, "AA:AA:AA:AA:AA:AA"⟩)] ∧
    processFragment 1 ⟨"CC:CC:CC:CC:CC:CC", "BB:BB:BB:BB:BB:BB", "FILE", 5, 1, 2,
        strBytes "b.txt|yy"⟩
      [(5, ⟨"a.txt".data, 2, [(1, strBytes "xx")], 0, "AA:AA:AA:AA:AA:AA"⟩)]
      = (true, [(5, ⟨"a.txt".data, 2, [(1, strBytes "xx")], 0, "AA:AA:AA:AA:AA:AA"⟩)], []) := by
  decide

/-! ## C8: the first-fragment filename -/

set_option maxRecDepth 100000 in
/-- C8 counterexample: a first fragment whose payload is `|xyz` — an empty
prefix before the first `|` — is discarded (`_process_fragment` returns
`False` and records nothing), although the claim says it is assembled under
`file_<tid>`. -/
theorem c8_counterexample :
    processFragment 0 ⟨"CC:CC:CC:CC:CC:CC", "AA:AA:AA:AA:AA:AA", "FILE", 5, 1, 1,
        strBytes "|xyz"⟩ [] = (false, [], []) := by
  decide

set_option maxRecDepth 100000 in
/-- C8 (amended): on the first fragment of an unknown transfer the payload
is split once on the first `|`.  A prefix that is empty after stripping
whitespace causes the fragment to be DISCARDED (no transfer is recorded);
a non-empty prefix is recorded verbatim, and only at assembly time is it
sanitized to alphanumerics plus space, `-`, `_`, `.`, with the name
`file_<tid>` used when the sanitized result is empty.  Concretely, a
single-fragment transfer 5 named `###` is assembled as `file_5`. -/
theorem c8_empty_prefix_discarded :
    (∀ (now : Int) (f : Frame) (tbl : TransferTable),
      dictLookup f.transfer_id tbl = none → f.fragment_no = 1 → pipeByte ∈ f.data →
      pyStrip (utf8DecodeReplace (f.data.takeWhile (fun b => b ≠ pipeByte))) = [] →
      processFragment now f tbl = (false, tbl, [])) ∧
    (∀ (tid : Nat) (nm : List Char), pyStrip (nm.filter keepFileChar) = [] →
      sanitizeFilename tid nm = "file_".data ++ decChars tid) ∧
    processFragment 0 ⟨"CC:CC:CC:CC:CC:CC", "AA:AA:AA:AA:AA:AA", "FILE", 5, 1, 1,
        strBytes "###|data"⟩ []
      = (true, [], [("file_5".data, strBytes "data")]) := by
  refine ⟨?_, ?_, by decide⟩
  · intro now f tbl hlk hfno hpipe hempty
    unfold processFragment
    simp only []
    rw [hlk]
    simp only []
    rw [if_neg (by simp [hfno]), if_neg (by simp [hpipe]), if_pos hempty]
  · intro tid nm h
    unfold sanitizeFilename
    simp [h]

/-- Applying the amended C8 at a concrete whitespace-only prefix. -/
theorem c8_empty_prefix_discarded_witness :
    processFragment 3 ⟨"CC:CC:CC:CC:CC:CC", "AA:AA:AA:AA:AA:AA", "FILE", 9, 1, 2,
        strBytes "  |zz"⟩ [] = (false, [], []) :=
  c8_empty_prefix_discarded.1 3 _ [] (by decide) (by decide) (by decide) (by decide)

/-! ## The file sender (`FileSender.start_transfer` and
`FrameFactory.build_file`) -/

def CHUNK_SIZE : Nat := 1400

/-- `total_frags = ceil(filesize / CHUNK_SIZE)` with the explicit floor of 1
(`if total_frags == 0: total_frags = 1`). -/
def totalFragsFor (filesize : Nat) : Nat :=
  let t := (filesize + CHUNK_SIZE - 1) / CHUNK_SIZE
  if t = 0 then 1 else t

/-- `FrameFactory.build_file`: range and non-empty checks, then the checked
`Frame` constructor. -/
def buildFile (miMac : String) (transferId : Nat) (chunk : List Nat) (fragmentNo : Nat)
    (macDst : String) (totalFragments : Nat) : Option Frame :=
  if ¬(1 ≤ fragmentNo ∧ fragmentNo ≤ totalFragments) then none
  else if chunk.length = 0 then none
  else frameMk macDst miMac "FILE" transferId fragmentNo totalFragments (some chunk)

/-- The fragment loop of `start_transfer`: for `fragment_no` in
`1..total_frags`, read a chunk, BREAK when the chunk is empty, prefix the
first fragment with `"<basename>|"`, and build the FILE frame.  Returns the
frames put on the wire (the reliable and unreliable paths enqueue the same
frames). -/
def sendLoop (miMac : String) (tid : Nat) (fname : List Char) (macDst : String)
    (total : Nat) : Nat → Nat → List Nat → Except String (List Frame)
  | 0, _, _ => Except.ok []
  | cnt + 1, i, content =>
    let chunk := content.take CHUNK_SIZE
    if chunk = [] then Except.ok []
    else
      let payload := if i = 1 then strBytes (String.mk (fname ++ ['|'])) ++ chunk else chunk
      match buildFile miMac tid payload i macDst total with
      | none => Except.error "build_file"
      | some fr =>
        match sendLoop miMac tid fname macDst total cnt (i + 1) (content.drop CHUNK_SIZE) with
        | Except.ok frames => Except.ok (fr :: frames)
        | Except.error e => Except.error e

/-- The pure fragment-production core of `start_transfer`. -/
def startTransferFrames (miMac : String) (tid : Nat) (filename : List Char)
    (content : List Nat) (macDst : String) : Except String (List Frame) :=
  sendLoop miMac tid filename macDst (totalFragsFor content.length)
    (totalFragsFor content.length) 1 content

/-- C7 fails on the empty file: `total_frags` is forced to 1 by the explicit
floor, yet the loop reads an empty first chunk and BREAKS before building
any frame, so an empty file produces zero FILE frames where the claim (and
the floor-of-1 in the code itself) requires one fragment whose payload is
`"<basename>|"`. -/
theorem c7_empty_file_sends_nothing :
    totalFragsFor 0 = 1 ∧
    startTransferFrames "00:11:22:33:44:55" 7 "a.txt".data [] "FF:FF:FF:FF:FF:FF"
      = Except.ok [] := by
  decide

/-! ## The presence manager (`OnlineManager`)

`diccionario_usuarios` is a dict keyed by the source MAC holding
`{username, last_seen, status}`.  `manage_broadcast` decodes the BROADCAST
payload as UTF-8, splits on `|` into exactly two fields, upserts on
`online`, deletes on `offline`, and drops everything else (decode errors
are swallowed by the `except`).  `cleanup_peers` drops peers older than
`PEER_TIMEOUT = 90` seconds. -/

def PEER_TIMEOUT : Int := 90

structure PeerInfo where
  username : List Char
  lastSeen : Int
  status : List Char
deriving DecidableEq, Repr

abbrev PeerTable := List (String × PeerInfo)

/-- The three ways `manage_broadcast` can read a payload. -/
inductive BKind where
  | online (u : List Char)
  | offline (u : List Char)
  | malformed
deriving DecidableEq, Repr

def classifyBeacon (payload : List Nat) : BKind :=
  match utf8Decode payload with
  | none => .malformed
  | some cs =>
    match splitOnChar '|' cs with
    | [u, st] =>
      if st = "online".data then .online u
      else if st = "offline".data then .offline u
      else .malformed
    | _ => .malformed

def manageBroadcast (now : Int) (src : String) (payload : List Nat) (tbl : PeerTable) :
    PeerTable :=
  match classifyBeacon payload with
  | .online u => dictSet src ⟨u, now, "online".data⟩ tbl
  | .offline _ => if (dictLookup src tbl).isSome then dictRemove src tbl else tbl
  | .malformed => tbl

def cleanupPeers (now : Int) (tbl : PeerTable) : PeerTable :=
  tbl.filter (fun e => decide (now - e.2.lastSeen ≤ PEER_TIMEOUT))

/-- An event observed by the presence manager: a beacon ingested from the
router, or one run of `cleanup_peers`. -/
inductive PEvent where
  | beacon (src : String) (payload : List Nat)
  | cleanup
deriving DecidableEq, Repr

abbrev TEvent := Int × PEvent

def stepPeers (tbl : PeerTable) (e : TEvent) : PeerTable :=
  match e.2 with
  | .beacon src payload => manageBroadcast e.1 src payload tbl
  | .cleanup => cleanupPeers e.1 tbl

/-- The peer table after processing a timed event trace from startup. -/
def runPeers (evs : List TEvent) : PeerTable := evs.foldl stepPeers []

theorem keysNodup_stepPeers (tbl : PeerTable) (e : TEvent) (h : KeysNodup tbl) :
    KeysNodup (stepPeers tbl e) := by
  obtain ⟨t, ev⟩ := e
  cases ev with
  | beacon src payload =>
    simp only [stepPeers, manageBroadcast]
    cases hcb : classifyBeacon payload with
    | online u =>
      simp only [hcb]
      exact keysNodup_set _ _ _ h
    | offline u =>
      simp only [hcb]
      split
      · exact keysNodup_remove _ _ h
      · exact h
    | malformed =>
      simp only [hcb]
      exact h
  | cleanup => exact keysNodup_filter _ _ h

theorem keysNodup_runPeers (evs : List TEvent) : KeysNodup (runPeers evs) := by
  have key : ∀ (l : List TEvent) (tbl : PeerTable), KeysNodup tbl →
      KeysNodup (l.foldl stepPeers tbl) := by
    intro l
    induction l with
    | nil => intro tbl h; exact h
    | cons e rest ih =>
      intro tbl h
      exact ih _ (keysNodup_stepPeers tbl e h)
  exact key evs [] (by simp [KeysNodup])

theorem snoc_eq_append_cons {α : Type} {l : List α} {a : α} {p : List α} {x : α}
    {s : List α} :
    l ++ [a] = p ++ x :: s ↔
      (p = l ∧ x = a ∧ s = []) ∨ ∃ s2, s = s2 ++ [a] ∧ l = p ++ x :: s2 := by
  constructor
  · intro h
    induction p generalizing l with
    | nil =>
      cases l with
      | nil =>
        simp only [List.nil_append] at h
        obtain ⟨rfl, h2⟩ := List.cons.inj h
        exact Or.inl ⟨rfl, rfl, h2.symm⟩
      | cons hd t =>
        simp only [List.cons_append, List.nil_append] at h
        obtain ⟨rfl, h2⟩ := List.cons.inj h
        exact Or.inr ⟨t, h2.symm, rfl⟩
    | cons q p2 ih =>
      cases l with
      | nil =>
        simp only [List.nil_append, List.cons_append] at h
        obtain ⟨rfl, h2⟩ := List.cons.inj h
        exact absurd h2.symm (by simp)
      | cons hd t =>
        simp only [List.cons_append] at h
        obtain ⟨rfl, h2⟩ := List.cons.inj h
        rcases ih h2 with ⟨rfl, rfl, rfl⟩ | ⟨s2, rfl, rfl⟩
        · exact Or.inl ⟨rfl, rfl, rfl⟩
        · exact Or.inr ⟨s2, rfl, rfl⟩
  · rintro (⟨rfl, rfl, rfl⟩ | ⟨s2, rfl, rfl⟩)
    · rfl
    · simp

/-- The events after an `online` beacon that cannot disturb the resulting
table entry: no well-formed beacon from the same MAC, and every cleanup
close enough to its `last_seen` timestamp. -/
def KeepsAlive (mac : String) (t : Int) (suf : List TEvent) : Prop :=
  ∀ T2 e, (T2, e) ∈ suf →
    (∀ p, e = PEvent.beacon mac p → classifyBeacon p = BKind.malformed) ∧
    (e = PEvent.cleanup → T2 - t ≤ PEER_TIMEOUT)

theorem keepsAlive_append_singleton (mac : String) (t : Int) (suf : List TEvent)
    (e : TEvent) :
    KeepsAlive mac t (suf ++ [e]) ↔
      KeepsAlive mac t suf ∧
      ((∀ p, e.2 = PEvent.beacon mac p → classifyBeacon p = BKind.malformed) ∧
        (e.2 = PEvent.cleanup → e.1 - t ≤ PEER_TIMEOUT)) := by
  obtain ⟨T2, ev⟩ := e
  constructor
  · intro h
    refine ⟨fun T3 e3 hm => h T3 e3 (by simp [hm]), h T2 ev (by simp)⟩
  · rintro ⟨h1, h2⟩ T3 e3 hm
    simp only [List.mem_append, List.mem_singleton] at hm
    rcases hm with hm | hm
    · exact h1 T3 e3 hm
    · obtain ⟨rfl, rfl⟩ := Prod.mk.inj hm
      exact h2

/-- Appending a beacon event that is neither a well-formed beacon from `mac`
nor the online witness itself does not change the witness decompositions. -/
theorem rhs_snoc_beacon (evs : List TEvent) (T : Int) (m : String) (p0 : List Nat)
    (mac : String) (u : List Char) (t : Int) (st : List Char)
    (hmal : ∀ p2, PEvent.beacon m p0 = PEvent.beacon mac p2 →
      classifyBeacon p2 = BKind.malformed)
    (hnotwit : ¬ (m = mac ∧ classifyBeacon p0 = BKind.online u)) :
    (∃ pre p suf, evs ++ [(T, PEvent.beacon m p0)] = pre ++ (t, PEvent.beacon mac p) :: suf ∧
        classifyBeacon p = BKind.online u ∧ st = "online".data ∧ KeepsAlive mac t suf) ↔
    (∃ pre p suf, evs = pre ++ (t, PEvent.beacon mac p) :: suf ∧
        classifyBeacon p = BKind.online u ∧ st = "online".data ∧ KeepsAlive mac t suf) := by
  constructor
  · rintro ⟨pre, p, suf, hdec, hcp, hst, hk⟩
    rcases snoc_eq_append_cons.mp hdec with ⟨rfl, hx, rfl⟩ | ⟨s2, rfl, rfl⟩
    · obtain ⟨-, hbe⟩ := Prod.mk.inj hx
      obtain ⟨hmm, hpp⟩ := PEvent.beacon.inj hbe
      exact absurd ⟨hmm.symm, by rw [← hpp]; exact hcp⟩ hnotwit
    · rw [keepsAlive_append_singleton] at hk
      exact ⟨pre, p, s2, rfl, hcp, hst, hk.1⟩
  · rintro ⟨pre, p, suf, rfl, hcp, hst, hk⟩
    refine ⟨pre, p, suf ++ [(T, PEvent.beacon m p0)], by simp, hcp, hst, ?_⟩
    rw [keepsAlive_append_singleton]
    exact ⟨hk, fun p2 hp2 => hmal p2 hp2, fun hcl => by simp at hcl⟩

/-- The characterization of the peer table: `mac` maps to `⟨u, t, st⟩` after
a trace exactly when some online beacon from `mac` with username `u` arrived
at time `t`, no later event disturbed that entry, and `st` is `"online"`. -/
theorem runPeers_lookup_char (evs : List TEvent) (mac : String) (u : List Char) (t : Int)
    (st : List Char) :
    dictLookup mac (runPeers evs) = some ⟨u, t, st⟩ ↔
      ∃ pre p suf, evs = pre ++ (t, PEvent.beacon mac p) :: suf ∧
        classifyBeacon p = BKind.online u ∧ st = "online".data ∧ KeepsAlive mac t suf := by
  induction evs using List.reverseRecOn with
  | nil =>
    constructor
    · intro h
      simp [runPeers, dictLookup] at h
    · rintro ⟨pre, p, suf, hdec, -, -, -⟩
      exact absurd hdec (by simp)
  | append_singleton evs e ih =>
    obtain ⟨T, ev⟩ := e
    have hrun : runPeers (evs ++ [(T, ev)]) = stepPeers (runPeers evs) (T, ev) := by
      unfold runPeers
      rw [List.foldl_append]
      rfl
    rw [hrun]
    cases ev with
    | cleanup =>
      have lhs_iff : dictLookup mac (stepPeers (runPeers evs) (T, PEvent.cleanup))
          = some ⟨u, t, st⟩ ↔
          (dictLookup mac (runPeers evs) = some ⟨u, t, st⟩ ∧ T - t ≤ PEER_TIMEOUT) := by
        simp only [stepPeers, cleanupPeers]
        rw [dictLookup_filter mac _ _ (keysNodup_runPeers evs)]
        cases hl : dictLookup mac (runPeers evs) with
        | none => simp
        | some v =>
          obtain ⟨vu, vt, vst⟩ := v
          simp only [Option.some.injEq, PeerInfo.mk.injEq]
          by_cases hp : T - vt ≤ PEER_TIMEOUT
          · rw [if_pos (by simpa using hp)]
            simp only [Option.some.injEq, PeerInfo.mk.injEq]
            constructor
            · rintro ⟨rfl, rfl, rfl⟩
              exact ⟨⟨rfl, rfl, rfl⟩, hp⟩
            · rintro ⟨⟨rfl, rfl, rfl⟩, -⟩
              exact ⟨rfl, rfl, rfl⟩
          · rw [if_neg (by simpa using hp)]
            constructor
            · intro h
              simp at h
            · rintro ⟨⟨rfl, rfl, rfl⟩, hT⟩
              exact absurd hT hp
      rw [lhs_iff, ih]
      constructor
      · rintro ⟨⟨pre, p, suf, rfl, hcp, hst, hk⟩, hT⟩
        refine ⟨pre, p, suf ++ [(T, PEvent.cleanup)], by simp, hcp, hst, ?_⟩
        rw [keepsAlive_append_singleton]
        exact ⟨hk, fun p2 hp2 => by simp at hp2, fun _ => hT⟩
      · rintro ⟨pre, p, suf, hdec, hcp, hst, hk⟩
        rcases snoc_eq_append_cons.mp hdec with ⟨rfl, hx, rfl⟩ | ⟨s2, rfl, rfl⟩
        · obtain ⟨-, hbe⟩ := Prod.mk.inj hx
          exact absurd hbe (by simp)
        · rw [keepsAlive_append_singleton] at hk
          exact ⟨⟨pre, p, s2, rfl, hcp, hst, hk.1⟩, hk.2.2 rfl⟩
    | beacon m p0 =>
      simp only [stepPeers, manageBroadcast]
      cases hcb : classifyBeacon p0 with
      | online u0 =>
        simp only [hcb]
        by_cases hm : m = mac
        · subst hm
          constructor
          · intro h
            rw [dictLookup_set_self] at h
            obtain ⟨rfl, rfl, rfl⟩ :=
              (by simpa [PeerInfo.mk.injEq] using h.symm : u = u0 ∧ t = T ∧ st = "online".data)
            refine ⟨evs, p0, [], by simp, hcb, rfl, ?_⟩
            intro T2 e2 hm2
            simp at hm2
          · rintro ⟨pre, p, suf, hdec, hcp, hst, hk⟩
            rcases snoc_eq_append_cons.mp hdec with ⟨rfl, hx, rfl⟩ | ⟨s2, rfl, rfl⟩
            · obtain ⟨ht, hbe⟩ := Prod.mk.inj hx
              obtain ⟨-, hpp⟩ := PEvent.beacon.inj hbe
              subst ht
              subst hpp
              rw [hcb] at hcp
              obtain rfl := (BKind.online.inj hcp).symm
              rw [dictLookup_set_self, hst]
            · rw [keepsAlive_append_singleton] at hk
              have hmal := hk.2.1 p0 rfl
              rw [hcb] at hmal
              exact absurd hmal (by simp)
        · rw [dictLookup_set_ne _ _ (fun he => hm he.symm), ih]
          exact (rhs_snoc_beacon evs T m p0 mac u t st
            (fun p2 hp2 => absurd (PEvent.beacon.inj hp2).1 hm)
            (fun hw => hm hw.1)).symm
      | offline u0 =>
        simp only [hcb]
        by_cases hm : m = mac
        · subst hm
          constructor
          · intro h
            exfalso
            by_cases hl : (dictLookup m (runPeers evs)).isSome
            · rw [if_pos hl, dictLookup_remove_self _ _ (keysNodup_runPeers evs)] at h
              simp at h
            · rw [if_neg hl] at h
              exact hl (by simp [h])
          · rintro ⟨pre, p, suf, hdec, hcp, hst, hk⟩
            rcases snoc_eq_append_cons.mp hdec with ⟨rfl, hx, rfl⟩ | ⟨s2, rfl, rfl⟩
            · obtain ⟨-, hbe⟩ := Prod.mk.inj hx
              obtain ⟨-, hpp⟩ := PEvent.beacon.inj hbe
              subst hpp
              rw [hcb] at hcp
              exact absurd hcp (by simp)
            · rw [keepsAlive_append_singleton] at hk
              have hmal := hk.2.1 p0 rfl
              rw [hcb] at hmal
              exact absurd hmal (by simp)
        · have hlhs : dictLookup mac
              (if (dictLookup m (runPeers evs)).isSome then dictRemove m (runPeers evs)
               else runPeers evs) = dictLookup mac (runPeers evs) := by
            split
            · exact dictLookup_remove_ne _ (fun he => hm he.symm)
            · rfl
          rw [hlhs, ih]
          exact (rhs_snoc_beacon evs T m p0 mac u t st
            (fun p2 hp2 => absurd (PEvent.beacon.inj hp2).1 hm)
            (fun hw => hm hw.1)).symm
      | malformed =>
        simp only [hcb]
        rw [ih]
        exact (rhs_snoc_beacon evs T m p0 mac u t st
          (fun p2 hp2 => by rw [← (PEvent.beacon.inj hp2).2]; exact hcb)
          (fun hw => by rw [hcb] at hw; exact absurd hw.2 (by simp))).symm

/-- Every list of timed events either contains no well-formed `online` beacon
from `mac`, or splits at the last such beacon. -/
theorem exists_last_online (mac : String) (s : List TEvent) :
    (∀ t2 q, (t2, PEvent.beacon mac q) ∈ s → ∀ v, classifyBeacon q ≠ BKind.online v) ∨
    (∃ mid t2 q v s2, s = mid ++ (t2, PEvent.beacon mac q) :: s2 ∧
      classifyBeacon q = BKind.online v ∧
      ∀ t3 r, (t3, PEvent.beacon mac r) ∈ s2 → ∀ w, classifyBeacon r ≠ BKind.online w) := by
  induction s using List.reverseRecOn with
  | nil => exact Or.inl (fun t2 q hm => absurd hm (by simp))
  | append_singleton s e ih =>
    obtain ⟨t2, ev⟩ := e
    by_cases hw : ∃ q v, ev = PEvent.beacon mac q ∧ classifyBeacon q = BKind.online v
    · obtain ⟨q, v, rfl, hq⟩ := hw
      exact Or.inr ⟨s, t2, q, v, [], rfl, hq, fun t3 r hm => absurd hm (by simp)⟩
    · have hnot : ∀ q, ev = PEvent.beacon mac q → ∀ v, classifyBeacon q ≠ BKind.online v :=
        fun q hq v hv => hw ⟨q, v, hq, hv⟩
      rcases ih with hno | ⟨mid, t3, q3, v3, s2, rfl, hq3, hno2⟩
      · refine Or.inl ?_
        intro t4 q hm v
        rcases List.mem_append.mp hm with hm | hm
        · exact hno t4 q hm v
        · simp only [List.mem_singleton] at hm
          obtain ⟨rfl, he⟩ := Prod.mk.inj hm
          exact hnot q he.symm v
      · refine Or.inr ⟨mid, t3, q3, v3, s2 ++ [(t2, ev)], by simp, hq3, ?_⟩
        intro t4 r hm w
        rcases List.mem_append.mp hm with hm | hm
        · exact hno2 t4 r hm w
        · simp only [List.mem_singleton] at hm
          obtain ⟨rfl, he⟩ := Prod.mk.inj hm
          exact hnot r he.symm w

/-- `KeepsAlive` packaged from its two pointwise parts. -/
theorem keepsAlive_of_parts (mac : String) (t : Int) (s : List TEvent)
    (hno : ∀ T2 q, (T2, PEvent.beacon mac q) ∈ s → classifyBeacon q = BKind.malformed)
    (hcl : ∀ T2, (T2, PEvent.cleanup) ∈ s → T2 - t ≤ PEER_TIMEOUT) :
    KeepsAlive mac t s := by
  intro T2 e hm
  refine ⟨fun p hp => ?_, fun hc => ?_⟩
  · subst hp; exact hno T2 p hm
  · subst hc; exact hcl T2 hm

instance : IsTrans TEvent (fun a b : TEvent => a.1 ≤ b.1) :=
  ⟨fun _ _ _ h1 h2 => le_trans h1 h2⟩

set_option maxHeartbeats 1600000 in
/-- C9: over any time-ordered event trace ending in a `cleanup_peers` run at
time `T`, a MAC is present in the peer table iff it emitted a well-formed
`<user>|online` beacon at some time `t` with `T - t ≤ PEER_TIMEOUT` and has
not since emitted a well-formed `<user>|offline` beacon; moreover a
malformed payload leaves the table unchanged by `manage_broadcast`, and the
empty payload is malformed. -/
theorem c9_peer_presence :
    (∀ (evs : List TEvent) (T : Int) (mac : String),
      List.Chain' (fun a b : TEvent => a.1 ≤ b.1) (evs ++ [(T, PEvent.cleanup)]) →
      ((dictLookup mac (runPeers (evs ++ [(T, PEvent.cleanup)]))).isSome ↔
        ∃ pre p u t suf, evs = pre ++ (t, PEvent.beacon mac p) :: suf ∧
          classifyBeacon p = BKind.online u ∧ T - t ≤ PEER_TIMEOUT ∧
          ∀ T2 q, (T2, PEvent.beacon mac q) ∈ suf → ∀ v,
            classifyBeacon q ≠ BKind.offline v)) ∧
    (∀ (now : Int) (src : String) (p : List Nat) (tbl : PeerTable),
      classifyBeacon p = BKind.malformed → manageBroadcast now src p tbl = tbl) ∧
    classifyBeacon [] = BKind.malformed := by
  refine ⟨?_, ?_, by decide⟩
  · intro evs T mac hch
    have hpw : List.Pairwise (fun a b : TEvent => a.1 ≤ b.1) (evs ++ [(T, PEvent.cleanup)]) :=
      List.chain'_iff_pairwise.mp hch
    have hlastle : ∀ x ∈ evs, x.1 ≤ T := by
      intro x hx
      exact (List.pairwise_append.mp hpw).2.2 x hx (T, PEvent.cleanup) (by simp)
    constructor
    · intro h
      obtain ⟨⟨u, t, st⟩, hv⟩ := Option.isSome_iff_exists.mp h
      obtain ⟨pre, p, suf, hdec, hcp, hst, hk⟩ :=
        (runPeers_lookup_char _ mac u t st).mp hv
      rcases snoc_eq_append_cons.mp hdec with ⟨rfl, hx, rfl⟩ | ⟨s2, rfl, rfl⟩
      · obtain ⟨-, hbe⟩ := Prod.mk.inj hx
        exact absurd hbe (by simp)
      · rw [keepsAlive_append_singleton] at hk
        refine ⟨pre, p, u, t, s2, rfl, hcp, hk.2.2 rfl, ?_⟩
        intro T2 q hm v hv2
        have hq := (hk.1 T2 (PEvent.beacon mac q) hm).1 q rfl
        rw [hv2] at hq
        exact absurd hq (by simp)
    · rintro ⟨pre, p, u, t, suf, rfl, hcp, hT, hnooff⟩
      have hpw2 : List.Pairwise (fun a b : TEvent => a.1 ≤ b.1)
          ((t, PEvent.beacon mac p) :: suf) := by
        refine hpw.sublist ?_
        exact ((List.sublist_append_right pre _).trans (List.sublist_append_left _ _))
      have htle : ∀ x ∈ suf, t ≤ x.1 :=
        fun x hx => (List.pairwise_cons.mp hpw2).1 x hx
      rcases exists_last_online mac suf with hno | ⟨mid, t2, q, v, s2, rfl, hq, hno2⟩
      · have hv := (runPeers_lookup_char ((pre ++ (t, PEvent.beacon mac p) :: suf) ++
            [(T, PEvent.cleanup)]) mac u t ("online".data)).mpr
          ⟨pre, p, suf ++ [(T, PEvent.cleanup)], by simp, hcp, rfl, ?_⟩
        · rw [hv]; rfl
        · refine keepsAlive_of_parts mac t _ ?_ ?_
          · intro T2 q hm
            rcases List.mem_append.mp hm with hm | hm
            · cases hc : classifyBeacon q with
              | online w => exact absurd hc (hno T2 q hm w)
              | offline w => exact absurd hc (hnooff T2 q hm w)
              | malformed => rfl
            · simp only [List.mem_singleton] at hm
              obtain ⟨-, hbe⟩ := Prod.mk.inj hm
              exact absurd hbe (by simp)
          · intro T2 hm
            rcases List.mem_append.mp hm with hm | hm
            · have h1 : T2 ≤ T := hlastle (T2, PEvent.cleanup)
                (List.mem_append_right pre (List.mem_cons_of_mem _ hm))
              simp only [PEER_TIMEOUT] at hT ⊢
              omega
            · simp only [List.mem_singleton] at hm
              obtain ⟨rfl, -⟩ := Prod.mk.inj hm
              exact hT
      · have ht2 : t ≤ t2 := htle (t2, PEvent.beacon mac q) (by simp)
        have hv := (runPeers_lookup_char ((pre ++ (t, PEvent.beacon mac p) ::
            (mid ++ (t2, PEvent.beacon mac q) :: s2)) ++ [(T, PEvent.cleanup)])
            mac v t2 ("online".data)).mpr
          ⟨pre ++ (t, PEvent.beacon mac p) :: mid, q, s2 ++ [(T, PEvent.cleanup)],
            by simp, hq, rfl, ?_⟩
        · rw [hv]; rfl
        · refine keepsAlive_of_parts mac t2 _ ?_ ?_
          · intro T3 r hm
            rcases List.mem_append.mp hm with hm | hm
            · have hmsuf : (T3, PEvent.beacon mac r) ∈ mid ++ (t2, PEvent.beacon mac q) :: s2 :=
                List.mem_append_right mid (List.mem_cons_of_mem _ hm)
              cases hc : classifyBeacon r with
              | online w => exact absurd hc (hno2 T3 r hm w)
              | offline w => exact absurd hc (hnooff T3 r hmsuf w)
              | malformed => rfl
            · simp only [List.mem_singleton] at hm
              obtain ⟨-, hbe⟩ := Prod.mk.inj hm
              exact absurd hbe (by simp)
          · intro T3 hm
            rcases List.mem_append.mp hm with hm | hm
            · have h1 : T3 ≤ T := hlastle (T3, PEvent.cleanup)
                (List.mem_append_right pre (List.mem_cons_of_mem _
                  (List.mem_append_right mid (List.mem_cons_of_mem _ hm))))
              simp only [PEER_TIMEOUT] at hT ⊢
              omega
            · simp only [List.mem_singleton] at hm
              obtain ⟨rfl, -⟩ := Prod.mk.inj hm
              simp only [PEER_TIMEOUT] at hT ⊢
              omega
  · intro now src p tbl hm
    simp only [manageBroadcast, hm]

set_option maxRecDepth 100000 in
theorem c9_peer_presence_witness :
    (dictLookup "AA:AA:AA:AA:AA:AA"
      (runPeers ([((0 : Int), PEvent.beacon "AA:AA:AA:AA:AA:AA" (strBytes "alice|online"))] ++
        [((50 : Int), PEvent.cleanup)]))).isSome ∧
    manageBroadcast 7 "BB:BB:BB:BB:BB:BB" [124] [] = [] := by
  constructor
  · have hch : List.Chain' (fun a b : TEvent => a.1 ≤ b.1)
        ([((0 : Int), PEvent.beacon "AA:AA:AA:AA:AA:AA" (strBytes "alice|online"))] ++
          [((50 : Int), PEvent.cleanup)]) :=
      List.chain'_cons.mpr ⟨by norm_num, List.chain'_singleton _⟩
    exact (c9_peer_presence.1 _ 50 "AA:AA:AA:AA:AA:AA" hch).mpr
      ⟨[], strBytes "alice|online", "alice".data, 0, [], rfl, by decide, by decide,
        fun T2 q hm => absurd hm (by simp)⟩
  · exact c9_peer_presence.2.1 7 "BB:BB:BB:BB:BB:BB" [124] [] (by decide)

end QBol

